import Mathlib

/-!
# git-doc — verification of the commit-processing orchestration engine

A shallow embedding, in Lean 4, of the core of the `git-doc` repository:
the orchestrator update loop (`internal/orchestrator/updater.go`), the
resilient multi-provider generation client (`internal/llm`), the provider
response handling of the concrete clients, and the persistent store's
generation cache (`internal/state`).

Pure Go functions are translated directly.  Stateful code is modelled by
an explicit environment record holding the outcome of every injected
dependency call (git helper, persistent store, filesystem, document
updater, generation client), and the pipeline functions additionally
return a trace of the mutating calls they perform, so that frame
properties ("X is never invoked") become statements about the trace.

Go strings are modelled as Lean `String` (a list of Unicode scalar
values); `len(s)` on a Go string counts UTF-8 bytes and is modelled by
`goStrLen`.  Helpers that Go takes from its standard library
(`strings.TrimSpace`, `strings.Split`, `strings.Contains`, ...) are
re-implemented here with structural recursion so that every definition
evaluates by kernel reduction.
-/

namespace GitDoc

/-! ## Go string primitives -/

/-- Unicode White_Space property, as used by Go's `unicode.IsSpace`
(hence by `strings.TrimSpace` and `strings.Fields`). -/
def goIsSpace (c : Char) : Bool :=
  c == ' ' || c == '\t' || c == '\n' || c == '\x0b' || c == '\x0c' || c == '\r' ||
  c == '\u0085' || c == '\u00a0' || c == '\u1680' ||
  ('\u2000' ≤ c && c ≤ '\u200a') || c == '\u2028' || c == '\u2029' ||
  c == '\u202f' || c == '\u205f' || c == '\u3000'

/-- Go `strings.TrimSpace`: drop leading and trailing white space. -/
def trimSpace (s : String) : String :=
  (((s.toList.dropWhile goIsSpace).reverse.dropWhile goIsSpace).reverse).asString

/-- Go `strings.Trim(s, "*")`: drop leading and trailing `*` characters
(interior `*` characters are kept). -/
def trimStar (s : String) : String :=
  (((s.toList.dropWhile (· == '*')).reverse.dropWhile (· == '*')).reverse).asString

/-- Contiguous-sublist test on lists (used for Go `strings.Contains`). -/
def listIsInfix (pat : List Char) : List Char → Bool
  | [] => pat.isEmpty
  | c :: rest => pat.isPrefixOf (c :: rest) || listIsInfix pat rest

/-- Go `strings.Contains s sub`. -/
def strContainsSub (s sub : String) : Bool :=
  listIsInfix sub.toList s.toList

/-- Go `strings.HasPrefix s pat`. -/
def strStartsWith (s pat : String) : Bool :=
  pat.toList.isPrefixOf s.toList

/-- Go `strings.TrimPrefix s pat`: drop a leading occurrence of `pat`. -/
def strDropPre (s pat : String) : String :=
  if strStartsWith s pat then (s.toList.drop pat.toList.length).asString else s

/-- Worker for `strReplaceAll`, structurally recursive on a fuel bounded by
the input length (each step consumes at least one character, so the fuel
`s.length` never runs out; the 0-fuel branch is unreachable). -/
def replaceFuel (pat rep : List Char) : Nat → List Char → List Char
  | 0, s => s
  | fuel + 1, s =>
    match s with
    | [] => []
    | c :: rest =>
      if !pat.isEmpty && pat.isPrefixOf (c :: rest) then
        rep ++ replaceFuel pat rep fuel ((c :: rest).drop pat.length)
      else
        c :: replaceFuel pat rep fuel rest

/-- Go `strings.ReplaceAll s pat rep` (leftmost, non-overlapping matches);
only called with non-empty `pat` in this development. -/
def strReplaceAll (s pat rep : String) : String :=
  (replaceFuel pat.toList rep.toList s.toList.length s.toList).asString

/-- Worker for `goSplit`, structurally recursive on fuel (one unit per
character consumed, plus one for the final empty field). -/
def splitFuel (sep : List Char) : Nat → List Char → List Char → List (List Char)
  | 0, s, acc => [acc.reverse ++ s]
  | fuel + 1, s, acc =>
    match s with
    | [] => [acc.reverse]
    | c :: rest =>
      if !sep.isEmpty && sep.isPrefixOf (c :: rest) then
        acc.reverse :: splitFuel sep fuel ((c :: rest).drop sep.length) []
      else
        splitFuel sep fuel rest (c :: acc)

/-- Go `strings.Split s sep` for non-empty `sep` (Go splits after every
rune when `sep` is empty; this development never does that). -/
def goSplit (s sep : String) : List String :=
  if sep.isEmpty then [s]
  else (splitFuel sep.toList (s.toList.length + 1) s.toList []).map List.asString

/-- Go `strings.Fields`: the maximal runs of non-white-space characters. -/
def goFields (s : String) : List String :=
  let step := fun (acc : List (List Char) × List Char) (c : Char) =>
    if goIsSpace c then
      if acc.2.isEmpty then acc else (acc.1 ++ [acc.2], [])
    else (acc.1, acc.2 ++ [c])
  let fin := s.toList.foldl step ([], [])
  (if fin.2.isEmpty then fin.1 else fin.1 ++ [fin.2]).map List.asString

/-- Go `strconv.Atoi`: optional sign, then decimal digits.  (Go also fails
on 64-bit overflow; the diffs this program parses never reach that, and
the model uses unbounded `Int`.) -/
def goAtoi (s : String) : Option Int :=
  let signed : Int × List Char :=
    match s.toList with
    | '+' :: rest => (1, rest)
    | '-' :: rest => (-1, rest)
    | cs => (1, cs)
  if signed.2.isEmpty then none
  else if signed.2.all (·.isDigit) then
    some (signed.1 * (signed.2.foldl (fun acc c => acc * 10 + (c.toNat - 48)) 0 : Nat))
  else none

/-- Go `len` on a string: the number of UTF-8 bytes. -/
def goStrLen (s : String) : Nat :=
  s.toList.foldl (fun n c => n + c.utf8Size) 0

/-- Longest prefix whose UTF-8 size fits in `budget` bytes.  (Go's byte
slicing `content[:maxLen]` can cut a multi-byte character in half, which a
sequence of scalar values cannot represent; the model stops at the last
whole character, which no claim distinguishes.) -/
def takeBytes : List Char → Nat → List Char
  | [], _ => []
  | c :: rest, budget =>
    if c.utf8Size ≤ budget then c :: takeBytes rest (budget - c.utf8Size) else []

/-! ## internal/doc/fileio.go -/

/-- Model of `doc.DetectLineEnding`: CRLF if the content contains any CRLF, else LF. -/
def detectLineEnding (content : String) : String :=
  if strContainsSub content "\r\n" then "\r\n" else "\n"

/-- Model of `doc.NormalizeLineEndings`. -/
def normalizeLineEndings (content lineEnding : String) : String :=
  let normalized := strReplaceAll content "\r\n" "\n"
  let normalized := strReplaceAll normalized "\r" "\n"
  if lineEnding = "\r\n" then strReplaceAll normalized "\n" "\r\n" else normalized

/-! ## internal/diff (unified-diff analyzer) -/

/-- Model of `diff.Hunk`. -/
structure Hunk where
  oldStart : Int
  oldLines : Int
  newStart : Int
  newLines : Int
  lines : List String
deriving DecidableEq

/-- Model of `diff.FileDiff`. -/
structure FileDiff where
  path : String
  hunks : List Hunk
  addedLines : Nat
  delLines : Nat
deriving DecidableEq

/-- Model of `diff.Diff`. -/
structure Diff where
  files : List FileDiff
deriving DecidableEq

/-- Model of `diff.parseRange`: `-a,b` or `+c,d`, count defaulting to 1. -/
def parseRange (token pre : String) : Except String (Int × Int) :=
  let trimmed := strDropPre token pre
  match goSplit trimmed "," with
  | [] => Except.error ("invalid range token: " ++ token)
  | p0 :: rest =>
    match goAtoi p0 with
    | none => Except.error ("invalid start in token " ++ token)
    | some start =>
      match rest with
      | [] => Except.ok (start, 1)
      | p1 :: _ =>
        match goAtoi p1 with
        | none => Except.error ("invalid count in token " ++ token)
        | some count => Except.ok (start, count)

/-- Model of `diff.parseHunkHeader`: `@@ -a,b +c,d @@ optional-text`. -/
def parseHunkHeader (header : String) : Except String Hunk :=
  match goSplit header "@@" with
  | _ :: second :: _ =>
    let core := trimSpace second
    match goFields core with
    | f0 :: f1 :: _ => do
      let old ← parseRange f0 "-"
      let new ← parseRange f1 "+"
      Except.ok ⟨old.1, old.2, new.1, new.2, []⟩
    | _ => Except.error ("invalid hunk header core: " ++ header)
  | _ => Except.error ("invalid hunk header: " ++ header)

/-- The mutable cursor of `diff.ParseUnifiedDiff`'s loop: finished files
plus the file and hunk currently being accumulated. -/
structure ParseState where
  files : List FileDiff
  currentFile : Option FileDiff
  currentHunk : Option Hunk

/-- The `flushHunk` closure in `ParseUnifiedDiff`: append the current hunk to
the current file; a no-op when either is absent. -/
def flushHunk (st : ParseState) : ParseState :=
  match st.currentFile, st.currentHunk with
  | some f, some h =>
    { files := st.files, currentFile := some { f with hunks := f.hunks ++ [h] }, currentHunk := none }
  | _, _ => st

/-- The `flushFile` closure in `ParseUnifiedDiff`. -/
def flushFile (st : ParseState) : ParseState :=
  let st := flushHunk st
  match st.currentFile with
  | some f => { files := st.files ++ [f], currentFile := none, currentHunk := st.currentHunk }
  | none => st

/-- One iteration of `ParseUnifiedDiff`'s line loop. -/
def parseLine (st : ParseState) (line : String) : Except String ParseState :=
  if strStartsWith line "diff --git " then
    Except.ok { flushFile st with currentFile := some ⟨"", [], 0, 0⟩ }
  else if strStartsWith line "+++ b/" then
    Except.ok (match st.currentFile with
      | some f => { st with currentFile := some { f with path := strDropPre line "+++ b/" } }
      | none => st)
  else if strStartsWith line "@@" then
    let st := flushHunk st
    match parseHunkHeader line with
    | Except.error e => Except.error e
    | Except.ok h => Except.ok { st with currentHunk := some h }
  else
    match st.currentFile, st.currentHunk with
    | some f, some h =>
      let h := { h with lines := h.lines ++ [line] }
      let f := { f with
        addedLines := f.addedLines +
          (if strStartsWith line "+" && !strStartsWith line "+++" then 1 else 0),
        delLines := f.delLines +
          (if strStartsWith line "-" && !strStartsWith line "---" then 1 else 0) }
      Except.ok { st with currentFile := some f, currentHunk := some h }
    | _, _ => Except.ok st

/-- Model of `diff.ParseUnifiedDiff`. -/
def parseUnifiedDiff (raw : String) : Except String Diff :=
  if trimSpace raw = "" then Except.ok ⟨[]⟩
  else do
    let st ← (goSplit raw "\n").foldlM parseLine ⟨[], none, none⟩
    Except.ok ⟨(flushFile st).files⟩

/-- Model of `diff.BuildSummary`. -/
def buildSummary (d : Diff) : String :=
  if d.files.length = 0 then "No parseable file-level diff information available."
  else
    let lines := ("Files changed: " ++ toString d.files.length) ::
      d.files.map (fun f =>
        let path := if trimSpace f.path = "" then "(unknown path)" else f.path
        "- " ++ path ++ " (hunks=" ++ toString f.hunks.length ++ ", +" ++
          toString f.addedLines ++ ", -" ++ toString f.delLines ++ ")")
    String.intercalate "\n" lines

/-- Model of `diff.TruncateText`: identity unless `maxLen` is positive and shorter
than the content's byte length. -/
def truncateText (content : String) (maxLen : Int) : String :=
  if maxLen ≤ 0 || (goStrLen content : Int) ≤ maxLen then content
  else (takeBytes content.toList maxLen.toNat).asString

/-- Model of `orchestrator.buildPrompt`: deterministic prompt from commit message
and diff, preferring a bounded structured summary of the diff. -/
def buildPrompt (commitMessage diff : String) : String :=
  let diffContext :=
    match parseUnifiedDiff diff with
    | Except.ok parsed =>
      if parsed.files.length > 0 then truncateText (buildSummary parsed) 3000
      else truncateText diff 3000
    | Except.error _ => truncateText diff 3000
  "Update docs for this commit.\nCommit message: " ++ commitMessage ++
    "\nDiff:\n" ++ diffContext ++ "\nOutput updated section content only."

/-! ## internal/llm — concrete provider clients

Each client's `Generate` does: HTTP request → on transport error, return
the error; read the body; on status ≥ 300, return an error wrapping the
body; JSON-decode; then extract text from the decoded value.  The model
abstracts one HTTP round trip as an `HttpOutcome`: either a transport
error, or a status + raw body + decode result, and translates the
per-provider post-decode logic exactly. -/

/-- One HTTP round trip, as the provider's `Generate` observes it:
transport failure, or status code, raw body text and the JSON-decode
result (decoded shape `α` differs per provider). -/
inductive HttpOutcome (α : Type) where
  | netError (msg : String)
  | response (status : Nat) (body : String) (parsed : Except String α)

/-- The shared shell of every concrete client's `Generate`: transport
errors and decode errors surface as-is, a status ≥ 300 becomes
`"<provider> request failed: <trimmed body>"`, and an OK decoded value is
handed to the provider-specific extraction. -/
def httpGenerate {α : Type} (label : String) (extract : α → Except String String) :
    HttpOutcome α → Except String String
  | HttpOutcome.netError m => Except.error m
  | HttpOutcome.response status body parsed =>
    if 300 ≤ status then Except.error (label ++ " request failed: " ++ trimSpace body)
    else
      match parsed with
      | Except.error e => Except.error e
      | Except.ok v => extract v

/-- Model of `OpenAIClient.Generate` after decoding: the decoded value is the list
of `choices[i].message.content` strings.  Empty choice list is an error;
otherwise the first choice's content is trimmed and returned — with no
emptiness check on the content itself. -/
def openaiExtract : List String → Except String String
  | [] => Except.error "openai response has no choices"
  | c :: _ => Except.ok (trimSpace c)

/-- Model of `GroqClient.Generate` after decoding: like OpenAI, but a first choice
whose content trims to empty is also rejected. -/
def groqExtract : List String → Except String String
  | [] => Except.error "groq response has no choices"
  | c :: _ =>
    if trimSpace c = "" then Except.error "groq response has no choices"
    else Except.ok (trimSpace c)

/-- Model of `OllamaClient.Generate` after decoding: the decoded value is the
`response` field; empty after trimming is an error. -/
def ollamaExtract (resp : String) : Except String String :=
  if trimSpace resp = "" then Except.error "ollama response is empty"
  else Except.ok (trimSpace resp)

/-- One element of an Anthropic response's `content` array. -/
structure AnthropicContent where
  contentType : String
  text : String

/-- Model of `AnthropicClient.Generate` after decoding: first content block of type
`"text"` whose text trims non-empty. -/
def anthropicExtract (contents : List AnthropicContent) : Except String String :=
  match contents.find? (fun c => c.contentType == "text" && trimSpace c.text != "") with
  | some c => Except.ok (trimSpace c.text)
  | none => Except.error "anthropic response has no text content"

/-- Model of `GeminiClient.Generate` after decoding: the decoded value is, per
candidate, the list of its parts' text fields; the nested loops return the
first part that trims non-empty. -/
def geminiExtract (candidates : List (List String)) : Except String String :=
  match candidates.flatten.find? (fun t => trimSpace t != "") with
  | some t => Except.ok (trimSpace t)
  | none => Except.error "gemini response has no text content"

/-- Model of `OpenAIClient.Generate` (`internal/llm/openai.go`). -/
def openaiGenerate : HttpOutcome (List String) → Except String String :=
  httpGenerate "openai" openaiExtract

/-- Model of `GroqClient.Generate`. -/
def groqGenerate : HttpOutcome (List String) → Except String String :=
  httpGenerate "groq" groqExtract

/-- Model of `OllamaClient.Generate` (`internal/llm/ollama.go`). -/
def ollamaGenerate : HttpOutcome String → Except String String :=
  httpGenerate "ollama" ollamaExtract

/-- Model of `AnthropicClient.Generate` (`internal/llm/anthropic.go`). -/
def anthropicGenerate : HttpOutcome (List AnthropicContent) → Except String String :=
  httpGenerate "anthropic" anthropicExtract

/-- Model of `GeminiClient.Generate` (`internal/llm/gemini.go`). -/
def geminiGenerate : HttpOutcome (List (List String)) → Except String String :=
  httpGenerate "gemini" geminiExtract

/-! ## internal/llm — ResilientClient -/

/-- A wrapped provider: its name and, for each invocation index (0-based,
counted within one `Generate` call), the result that invocation returns.
The context is modelled by the constant `cancelled` flag below, which is
what a never-cancelled or always-cancelled `context.Context` looks like to
this loop. -/
structure Provider where
  name : String
  behavior : Nat → Except String String

/-- Outcome of the per-provider retry loop in `ResilientClient.Generate`. -/
inductive AttemptRes where
  | success (r : String)
  | canceled (e : String)
  | exhausted
deriving DecidableEq

/-- The inner `for attempt := 0; attempt <= maxRetries; attempt++` loop of
`ResilientClient.Generate` for one provider, returning the outcome, the
number of invocations made, the backoff waits slept (in milliseconds, in
order), and the last wrapped error.  Structurally recursive on a fuel that
starts at `maxRetries + 1`, the exact number of loop iterations, so the
0-fuel branch plays the role of the `attempt > maxRetries` exit. -/
def attemptLoop (cancelled : Bool) (ctxErr : String) (p : Provider) (maxRetries : Nat) :
    Nat → Nat → AttemptRes × Nat × List Nat × Option String
  | _, 0 => (AttemptRes.exhausted, 0, [], none)
  | attempt, fuel + 1 =>
    if cancelled then (AttemptRes.canceled ctxErr, 0, [], none)
    else
      match p.behavior attempt with
      | Except.ok r => (AttemptRes.success r, 1, [], none)
      | Except.error e =>
        let lastErr :=
          "provider " ++ p.name ++ " attempt " ++ toString (attempt + 1) ++ " failed: " ++ e
        if attempt < maxRetries then
          if cancelled then (AttemptRes.canceled ctxErr, 1, [], some lastErr)
          else
            let next := attemptLoop cancelled ctxErr p maxRetries (attempt + 1) fuel
            (next.1, next.2.1 + 1, 150 * 2 ^ attempt :: next.2.2.1, some (next.2.2.2.getD lastErr))
        else (AttemptRes.exhausted, 1, [], some lastErr)

/-- The outer provider loop of `ResilientClient.Generate`: providers in
order, each given a full retry budget, threading the chronologically last
wrapped error. -/
def generateAcross (cancelled : Bool) (ctxErr : String) (maxRetries : Nat) :
    List Provider → Option String → Except String String × List (String × Nat) × List Nat
  | [], lastErr => (Except.error (lastErr.getD "all llm providers failed"), [], [])
  | p :: rest, lastErr =>
    match attemptLoop cancelled ctxErr p maxRetries 0 (maxRetries + 1) with
    | (AttemptRes.success r, calls, waits, _) => (Except.ok r, [(p.name, calls)], waits)
    | (AttemptRes.canceled e, calls, waits, _) => (Except.error e, [(p.name, calls)], waits)
    | (AttemptRes.exhausted, calls, waits, le) =>
      let next := generateAcross cancelled ctxErr maxRetries rest (le.orElse (fun _ => lastErr))
      (next.1, (p.name, calls) :: next.2.1, waits ++ next.2.2)

/-- Model of `ResilientClient.Generate`, instrumented: besides the result it
returns, per visited provider in order, how many times that provider was
invoked, and the list of backoff waits (ms).  `cancelled` models the
context: `false` is a context that is never cancelled. -/
def resilientGenerate (clients : List Provider) (maxRetries : Nat)
    (cancelled : Bool) (ctxErr : String) :
    Except String String × List (String × Nat) × List Nat :=
  if clients.isEmpty then (Except.error "no llm clients configured", [], [])
  else generateAcross cancelled ctxErr maxRetries clients none

/-- Constructor clamp of `NewResilientClient`: a negative retry count becomes zero. -/
def newResilientMaxRetries (maxRetries : Int) : Nat :=
  if maxRetries < 0 then 0 else maxRetries.toNat

/-! ## internal/state — the generation-response cache

The `llm_cache` table has a UNIQUE constraint over the six key columns;
`PutCachedLLMResponse` upserts on that key (overwriting only
`response_text` on conflict) and `GetCachedLLMResponse` selects the row
matching all six columns, where the prompt-hash column is computed from
the prompt by `hashPrompt` (SHA-256, hex).  The table is modelled as a
list of rows and the fingerprint function as a parameter `hp`: the claims
depend only on fingerprint equality, never on a digest's value, so every
theorem below holds in particular for SHA-256. -/

/-- Model of `state.LLMCacheEntry`. -/
structure LLMCacheEntry where
  commitHash : String
  docFile : String
  sectionID : String
  provider : String
  model : String
  promptHash : String
  response : String
deriving DecidableEq

/-- The six-column UNIQUE key of `llm_cache`. -/
def cacheKeyMatches (r : LLMCacheEntry)
    (commitHash docFile sectionID provider model promptHash : String) : Bool :=
  r.commitHash == commitHash && r.docFile == docFile && r.sectionID == sectionID &&
    r.provider == provider && r.model == model && r.promptHash == promptHash

/-- Model of `Store.GetCachedLLMResponse` over fingerprint function `hp`: computes
`hp prompt` and selects on the six-column key; `(response, true)` on a
row, `("", false)` on no row.  (The `error` return models DB I/O failure
and is independent of the key logic; the orchestrator model carries it
separately in its environment.) -/
def getCachedLLMResponseModel (hp : String → String) (tbl : List LLMCacheEntry)
    (commitHash docFile sectionID provider model prompt : String) : String × Bool :=
  let promptHash := hp prompt
  match tbl.find? (fun r => cacheKeyMatches r commitHash docFile sectionID provider model promptHash) with
  | some r => (r.response, true)
  | none => ("", false)

/-- Model of `Store.PutCachedLLMResponse`: an empty prompt hash is an error;
otherwise upsert on the six-column key (`ON CONFLICT ... DO UPDATE SET
response_text = excluded.response_text`). -/
def putCachedLLMResponseModel (tbl : List LLMCacheEntry) (e : LLMCacheEntry) :
    Except String (List LLMCacheEntry) :=
  if e.promptHash = "" then Except.error "prompt hash is required for llm cache entry"
  else if tbl.any (fun r =>
      cacheKeyMatches r e.commitHash e.docFile e.sectionID e.provider e.model e.promptHash) then
    Except.ok (tbl.map (fun r =>
      if cacheKeyMatches r e.commitHash e.docFile e.sectionID e.provider e.model e.promptHash
      then { r with response := e.response } else r))
  else Except.ok (tbl ++ [e])

/-! ## internal/config — the slice of `config.Config` the orchestrator reads -/

/-- Model of `config.Mapping` (the source's `Section` field is `sectionName` here:
`section` is a Lean keyword). -/
structure MappingRule where
  codePattern : String
  docFile : String
  sectionName : String
deriving DecidableEq

/-- Model of `config.GitConfig`. -/
structure GitCfg where
  commitDocUpdates : Bool
  amendOriginal : Bool
  docCommitMessage : String
deriving DecidableEq

/-- The fields of `config.Config` that `orchestrator.Updater` reads:
`DocFiles`, `Mappings`, `Git`, `Runtime.DefaultSection` and `LLM.Model`. -/
structure Config where
  docFiles : List String
  mappings : List MappingRule
  git : GitCfg
  defaultSection : String
  llmModel : String
deriving DecidableEq

/-! ## internal/orchestrator — target resolution and validation -/

/-- The nested loops of `Updater.resolveTarget`: changed files in order,
and for each, mappings in declaration order; the first mapping whose
pattern — with leading and trailing `*` trimmed — occurs as a substring of
the changed path wins. -/
def resolveTargetLoop (cfg : Config) : List String → Option (String × String)
  | [] => none
  | changed :: rest =>
    match cfg.mappings.find? (fun m => strContainsSub changed (trimStar m.codePattern)) with
    | some m => some (m.docFile, m.sectionName)
    | none => resolveTargetLoop cfg rest

/-- Model of `Updater.resolveTarget`: the loop above, then the first configured doc
file with the default section, then the literal `"README.md"`. -/
def resolveTarget (cfg : Config) (changedFiles : List String) : String × String :=
  match resolveTargetLoop cfg changedFiles with
  | some t => t
  | none =>
    match cfg.docFiles with
    | d :: _ => (d, cfg.defaultSection)
    | [] => ("README.md", cfg.defaultSection)

/-- The claim's notion of a pattern "stripped of wildcard markers": every
`*` removed, wherever it occurs.  (The source trims only leading and
trailing `*`; this definition exists to state that difference.) -/
def stripWildcards (s : String) : String :=
  (s.toList.filter (fun c => c ≠ '*')).asString

/-- Target resolution as §4.3 step 4 words it (with the wildcard-stripping
read as the source's leading/trailing trim): first changed file and first
mapping in declaration order matched by substring containment, else first
configured doc file with the default section, else `"README.md"`. -/
def resolveTargetSpec (cfg : Config) (changedFiles : List String) : String × String :=
  match changedFiles.findSome? (fun changed =>
    cfg.mappings.findSome? (fun m =>
      if strContainsSub changed (trimStar m.codePattern) then some (m.docFile, m.sectionName)
      else none)) with
  | some t => t
  | none =>
    match cfg.docFiles with
    | d :: _ => (d, cfg.defaultSection)
    | [] => ("README.md", cfg.defaultSection)

/-- Model of `orchestrator.validateGeneratedSection`: trim, reject empty, reject a
trimmed byte length over 25000 (Go `len` counts UTF-8 bytes). -/
def validateGeneratedSection (content : String) : Except String Unit :=
  let trimmed := trimSpace content
  if trimmed = "" then Except.error "generated section content is empty"
  else if goStrLen trimmed > 25000 then Except.error "generated section content exceeds max size"
  else Except.ok ()

/-- Model of `orchestrator.mergeUnique`: first list then second, dropping empties
and duplicates, keeping first-seen order. -/
def mergeUnique (first second : List String) : List String :=
  ((first ++ second).foldl
    (fun (acc : List String × List String) item =>
      if item = "" then acc
      else if acc.1.contains item then acc
      else (item :: acc.1, acc.2 ++ [item]))
    ([], [])).2

/-! ## internal/orchestrator — the per-commit pipeline

`processSingleCommit` drives one commit through the pipeline against its
injected dependencies.  The model takes a `PipelineEnv` — the outcome of
every dependency call, as a function of the arguments the pipeline passes —
and returns the status string, the error (Go's second return value, `none`
for nil), and the ordered trace of mutating/generation calls performed. -/

/-- Model of `os.ReadFile` failure: `os.ErrNotExist` (matched by `errors.Is`) or
any other error. -/
inductive FsError where
  | notExist
  | other (msg : String)
deriving DecidableEq

/-- Model of `filepath.Join(repoRoot, targetDocFile)`; the model concatenates with
a separator — no claim depends on path cleaning. -/
def joinPath (a b : String) : String := a ++ "/" ++ b

/-- One mutating (or generation) call the pipeline performs, in order. -/
inductive Effect where
  | markCommit (hash status errText docCommit : String) (changed : Option (List String))
  | upsertPlanned (hash docFile sectionID strategy status reason : String)
  | logEvent (level component message : String)
  | llmGen (prompt : String)
  | putCache (hash docFile sectionID provider model promptHash response : String)
  | writeFile (path content : String)
  | stageCommit (files : List String) (message : String)
  | stageAmend (files : List String)
  | storeMap (hash docFile sectionName : String)
deriving DecidableEq

/-- Holds exactly on a generation-client invocation. -/
def Effect.isGen : Effect → Bool
  | Effect.llmGen _ => true
  | _ => false

/-- Holds exactly on the calls that touch the working tree or source
control: `AtomicWriteFile`, `StageAndCommit`, `StageAndAmend`. -/
def Effect.touchesRepo : Effect → Bool
  | Effect.writeFile _ _ => true
  | Effect.stageCommit _ _ => true
  | Effect.stageAmend _ => true
  | _ => false

/-- The outcome of every dependency call `processSingleCommit` makes, as
functions of the arguments the pipeline passes.  Fields mirror
`orchestrator.Dependencies` (git helper, state store, doc updater,
generation client) plus the filesystem; results the source discards with
`_ =` (run-event logs, cache writes) do not branch and so need no entry
here — they appear only in the trace. -/
structure PipelineEnv where
  cfg : Config
  markCommitProcessed : String → String → String → String → Option (List String) → Except String Unit
  upsertPlannedUpdate : String → String → String → String → String → String → Except String Unit
  getCachedLLMResponse : String → String → String → String → String → String → String × Bool × Option String
  storeMapping : String → String → String → Except String Unit
  getChangedFiles : String → Except String (List String)
  getCommitMessage : String → Except String String
  getCommitDiff : String → Except String String
  getRepoRoot : Except String String
  stageAndCommit : List String → String → Except String String
  stageAndAmend : List String → Except String String
  readFile : String → Except FsError String
  atomicWriteFile : String → String → Except String Unit
  llmName : String
  llmGenerate : String → Except String String
  replaceSection : String → String → String → Except String String
  hashPromptFn : String → String

/-- Tail of `processSingleCommit` from the success bookkeeping on
(updater.go lines 263–273): mark success with the doc-commit hash and
changed file, persist the code→doc mapping, mark the plan applied. -/
def finishSuccess (env : PipelineEnv) (hash targetDocFile targetSection docCommitHash : String)
    (fx : List Effect) : String × Option String × List Effect :=
  let fx2 := fx ++ [Effect.markCommit hash "success" "" docCommitHash (some [targetDocFile])]
  match env.markCommitProcessed hash "success" "" docCommitHash (some [targetDocFile]) with
  | Except.error e => ("failed", some e, fx2)
  | Except.ok _ =>
    let fx3 := fx2 ++ [Effect.storeMap hash targetDocFile targetSection]
    match env.storeMapping hash targetDocFile targetSection with
    | Except.error e => ("failed", some e, fx3)
    | Except.ok _ =>
      ("success", none,
        fx3 ++ [Effect.upsertPlanned hash targetDocFile targetSection "inferred" "applied" ""])

/-- Tail of `processSingleCommit` from validation on (updater.go lines
215–261): validate, apply the section replacement, normalize line endings,
short-circuit unchanged content to skipped, short-circuit dry-run to
success, else write the file atomically and optionally commit/amend. -/
def afterGen (env : PipelineEnv) (hash : String) (dryRun : Bool)
    (targetDocFile targetSection docRaw docPath newSection : String)
    (fx : List Effect) : String × Option String × List Effect :=
  match validateGeneratedSection newSection with
  | Except.error e =>
    ("failed", some e,
      fx ++ [Effect.upsertPlanned hash targetDocFile targetSection "inferred" "failed" e])
  | Except.ok _ =>
  match env.replaceSection docRaw targetSection newSection with
  | Except.error e =>
    ("failed", some e,
      fx ++ [Effect.upsertPlanned hash targetDocFile targetSection "inferred" "failed" e])
  | Except.ok replaced =>
  let updated := normalizeLineEndings replaced (detectLineEnding docRaw)
  if trimSpace updated = trimSpace docRaw then
    let fx2 := fx ++
      [Effect.upsertPlanned hash targetDocFile targetSection "inferred" "unchanged" "no document delta",
       Effect.markCommit hash "skipped" "" "" (some [])]
    match env.markCommitProcessed hash "skipped" "" "" (some []) with
    | Except.error e => ("failed", some e, fx2)
    | Except.ok _ => ("skipped", none, fx2)
  else if dryRun then
    let fx2 := fx ++
      [Effect.upsertPlanned hash targetDocFile targetSection "inferred" "applied" "dry-run",
       Effect.markCommit hash "success" "" "" (some [targetDocFile])]
    match env.markCommitProcessed hash "success" "" "" (some [targetDocFile]) with
    | Except.error e => ("failed", some e, fx2)
    | Except.ok _ => ("success", none, fx2)
  else
  let fx2 := fx ++ [Effect.writeFile docPath updated]
  match env.atomicWriteFile docPath updated with
  | Except.error e =>
    ("failed", some e,
      fx2 ++ [Effect.upsertPlanned hash targetDocFile targetSection "inferred" "failed" e])
  | Except.ok _ =>
  if env.cfg.git.commitDocUpdates then
    if env.cfg.git.amendOriginal then
      let fx3 := fx2 ++ [Effect.stageAmend [targetDocFile]]
      match env.stageAndAmend [targetDocFile] with
      | Except.error e => ("failed", some e, fx3)
      | Except.ok docCommitHash => finishSuccess env hash targetDocFile targetSection docCommitHash fx3
    else
      let msg := strReplaceAll env.cfg.git.docCommitMessage "{hash}" hash
      let fx3 := fx2 ++ [Effect.stageCommit [targetDocFile] msg]
      match env.stageAndCommit [targetDocFile] msg with
      | Except.error e => ("failed", some e, fx3)
      | Except.ok docCommitHash => finishSuccess env hash targetDocFile targetSection docCommitHash fx3
  else finishSuccess env hash targetDocFile targetSection "" fx2

/-- Model of `Updater.processSingleCommit` (updater.go lines 139–274), returning
`(status, error, trace)` where `error = none` is Go's nil. -/
def processSingleCommit (env : PipelineEnv) (hash : String) (dryRun : Bool) :
    String × Option String × List Effect :=
  let fx1 := [Effect.markCommit hash "in_progress" "" "" none]
  match env.markCommitProcessed hash "in_progress" "" "" none with
  | Except.error e => ("failed", some e, fx1)
  | Except.ok _ =>
  match env.getChangedFiles hash with
  | Except.error e => ("failed", some e, fx1)
  | Except.ok changedFiles =>
  if changedFiles.length = 0 then
    let fx2 := fx1 ++ [Effect.markCommit hash "skipped" "" "" none]
    match env.markCommitProcessed hash "skipped" "" "" none with
    | Except.error e => ("failed", some e, fx2)
    | Except.ok _ => ("skipped", none, fx2)
  else
  match env.getCommitMessage hash with
  | Except.error e => ("failed", some e, fx1)
  | Except.ok commitMessage =>
  match env.getCommitDiff hash with
  | Except.error e => ("failed", some e, fx1)
  | Except.ok diffContent =>
  let target := resolveTarget env.cfg changedFiles
  let targetDocFile := target.1
  let targetSection := target.2
  match env.getRepoRoot with
  | Except.error e => ("failed", some e, fx1)
  | Except.ok repoRoot =>
  let docPath := joinPath repoRoot targetDocFile
  match env.readFile docPath with
  | Except.error FsError.notExist =>
    ("failed", some ("target doc file not found: " ++ targetDocFile), fx1)
  | Except.error (FsError.other e) => ("failed", some e, fx1)
  | Except.ok docRaw =>
  let fx2 := fx1 ++
    [Effect.upsertPlanned hash targetDocFile targetSection "inferred" "planned" ""] ++
    (match env.upsertPlannedUpdate hash targetDocFile targetSection "inferred" "planned" "" with
     | Except.error _ => [Effect.logEvent "warn" "state" "failed to persist planned update"]
     | Except.ok _ => [])
  let prompt := buildPrompt commitMessage diffContent
  let providerName := env.llmName
  let modelName := env.cfg.llmModel
  let promptHash := env.hashPromptFn prompt
  let cacheRes := env.getCachedLLMResponse hash targetDocFile targetSection providerName modelName prompt
  let fx3 := fx2 ++
    (match cacheRes.2.2 with
     | some _ => [Effect.logEvent "warn" "state" "failed to read llm cache"]
     | none => [])
  if cacheRes.2.1 then
    afterGen env hash dryRun targetDocFile targetSection docRaw docPath cacheRes.1
      (fx3 ++ [Effect.logEvent "info" "llm" "cache hit"])
  else
    match env.llmGenerate prompt with
    | Except.error e =>
      ("failed", some e,
        fx3 ++ [Effect.llmGen prompt,
                Effect.upsertPlanned hash targetDocFile targetSection "inferred" "failed" e])
    | Except.ok newSection =>
      afterGen env hash dryRun targetDocFile targetSection docRaw docPath newSection
        (fx3 ++ [Effect.llmGen prompt,
                 Effect.putCache hash targetDocFile targetSection providerName modelName promptHash newSection])

/-! ## internal/orchestrator — the update loop and its entry points -/

/-- Model of `orchestrator.Summary`.  Go's fields are machine `int`s that the loop
only ever increments; `Int` keeps non-negativity a real statement. -/
structure Summary where
  processed : Int
  success : Int
  failed : Int
  skipped : Int
deriving DecidableEq

/-- The loop-level environment: a `PipelineEnv` per commit, plus the
outcome of the store/git calls the entry points make.
`getLastProcessedRange` returns the hashes of the commits in the range
(the source maps `[]gitutil.Commit` to hashes immediately). -/
structure TopEnv where
  perCommit : String → PipelineEnv
  getResumableCommits : Except String (List String)
  getLastProcessedCommit : Except String String
  getCurrentHEAD : Except String String
  getLastProcessedRange : String → String → Except String (List String)

/-- One iteration of `UpdateCommitList`'s loop: count the commit, mark it
pending (a store failure counts it failed), run the pipeline, and bucket
the outcome — error or unknown status into `Failed`. -/
def processOne (env : TopEnv) (dryRun : Bool) (acc : Summary) (hash : String) : Summary :=
  let acc := { acc with processed := acc.processed + 1 }
  match (env.perCommit hash).markCommitProcessed hash "pending" "" "" none with
  | Except.error _ => { acc with failed := acc.failed + 1 }
  | Except.ok _ =>
    match processSingleCommit (env.perCommit hash) hash dryRun with
    | (_, some _, _) => { acc with failed := acc.failed + 1 }
    | (status, none, _) =>
      if status = "success" then { acc with success := acc.success + 1 }
      else if status = "skipped" then { acc with skipped := acc.skipped + 1 }
      else { acc with failed := acc.failed + 1 }

/-- Model of `Updater.UpdateCommitList` (updater.go lines 98–137): the run-long
fold of `processOne` from the zero summary.  (The run-id generation and
run-start/run-end log events do not affect the summary.) -/
def updateCommitList (env : TopEnv) (commitHashes : List String) (dryRun : Bool) : Summary :=
  commitHashes.foldl (processOne env dryRun) ⟨0, 0, 0, 0⟩

/-- Model of `Updater.UpdateNewCommits`: resume point, head, range, merge with
resumable commits, then the core loop. -/
def updateNewCommits (env : TopEnv) (dryRun : Bool) : Except String Summary := do
  let resumableCommits ← env.getResumableCommits
  let last ← env.getLastProcessedCommit
  let head ← env.getCurrentHEAD
  let commitHashes ← env.getLastProcessedRange last head
  Except.ok (updateCommitList env (mergeUnique resumableCommits commitHashes) dryRun)

/-- Model of `Updater.UpdateRangeCommits`: blank `toHash` defaults to the current
head; both bounds are trimmed. -/
def updateRangeCommits (env : TopEnv) (fromHash toHash : String) (dryRun : Bool) :
    Except String Summary := do
  let toCommit ←
    if trimSpace toHash = "" then env.getCurrentHEAD else Except.ok (trimSpace toHash)
  let commitHashes ← env.getLastProcessedRange (trimSpace fromHash) toCommit
  Except.ok (updateCommitList env commitHashes dryRun)

/-- The exposed-summary contract of §6: all four counters non-negative and
`Processed = Success + Failed + Skipped`. -/
def summaryInv (s : Summary) : Prop :=
  s.processed = s.success + s.failed + s.skipped ∧
    0 ≤ s.processed ∧ 0 ≤ s.success ∧ 0 ≤ s.failed ∧ 0 ≤ s.skipped

instance (s : Summary) : Decidable (summaryInv s) := by
  unfold summaryInv; infer_instance

/-! ## Concrete fixtures

Closed instances used to witness the theorems below on computable
inputs. -/

/-- A small configuration: one doc file, no mappings, new-commit doc
commits enabled. -/
def sampleCfg : Config :=
  ⟨["README.md"], [], ⟨true, false, "docs: update for {hash}"⟩, "Recent Changes", "gpt"⟩

/-- A fully-succeeding environment for `sampleCfg`; witnesses override
single fields. -/
def sampleEnv : PipelineEnv where
  cfg := sampleCfg
  markCommitProcessed := fun _ _ _ _ _ => Except.ok ()
  upsertPlannedUpdate := fun _ _ _ _ _ _ => Except.ok ()
  getCachedLLMResponse := fun _ _ _ _ _ _ => ("", false, none)
  storeMapping := fun _ _ _ => Except.ok ()
  getChangedFiles := fun _ => Except.ok ["src/a.txt"]
  getCommitMessage := fun _ => Except.ok "feat: add thing"
  getCommitDiff := fun _ => Except.ok ""
  getRepoRoot := Except.ok "/repo"
  stageAndCommit := fun _ _ => Except.ok "dc1"
  stageAndAmend := fun _ => Except.ok "dc2"
  readFile := fun _ => Except.ok "# Doc\n\n## Recent Changes\n\nold\n"
  atomicWriteFile := fun _ _ => Except.ok ()
  llmName := "mock"
  llmGenerate := fun _ => Except.ok "new content"
  replaceSection := fun _ _ _ => Except.ok "# Doc\n\n## Recent Changes\n\nnew content\n"
  hashPromptFn := fun p => "h" ++ p

/-- A loop-level environment over `sampleEnv`. -/
def sampleTop : TopEnv where
  perCommit := fun _ => sampleEnv
  getResumableCommits := Except.ok ["r1"]
  getLastProcessedCommit := Except.ok ""
  getCurrentHEAD := Except.ok "head"
  getLastProcessedRange := fun _ _ => Except.ok ["c1", "r1"]

/-- The configuration of the target-resolution counterexample: one
mapping whose pattern has an interior `*`, and a fallback doc file. -/
def c4Cfg : Config :=
  ⟨["DOC.md"], [⟨"src/*.go", "API.md", "Api"⟩], ⟨false, false, ""⟩, "Main", "m"⟩

/-- 8334 copies of U+4E00 (3 UTF-8 bytes each): 8334 characters but
25002 bytes. -/
def bigCJK : String := String.mk (List.replicate 8334 (Char.ofNat 0x4E00))

/-- A provider that fails twice, then succeeds. -/
def wProvFlaky : Provider :=
  ⟨"p", fun k => if k < 2 then Except.error "boom" else Except.ok "done"⟩

/-- A provider that always fails. -/
def wProvDown : Provider := ⟨"f", fun _ => Except.error "always"⟩

/-- A provider that always succeeds. -/
def wProvUp : Provider := ⟨"q", fun _ => Except.ok "fall"⟩

/-- A cache row whose prompt hash is `sampleHash "p1"`. -/
def sampleEntry : LLMCacheEntry := ⟨"c1", "README.md", "Recent Changes", "mock", "gpt", "hp1", "stored"⟩

/-- The fingerprint function of the cache fixtures (the model is
parametric in it; the source's is SHA-256 hex). -/
def sampleHash (s : String) : String := "h" ++ s

/-! ## Supporting lemmas -/

/-- One loop iteration preserves the summary contract: exactly one of
`Success`/`Failed`/`Skipped` accompanies each `Processed` increment. -/
theorem processOne_inv (env : TopEnv) (dryRun : Bool) (acc : Summary) (hash : String)
    (h : summaryInv acc) : summaryInv (processOne env dryRun acc hash) := by
  obtain ⟨h0, h1, h2, h3, h4⟩ := h
  unfold processOne
  split
  · exact ⟨by dsimp; omega, by dsimp; omega, by dsimp; omega, by dsimp; omega, by dsimp; omega⟩
  · split
    · exact ⟨by dsimp; omega, by dsimp; omega, by dsimp; omega, by dsimp; omega, by dsimp; omega⟩
    · split
      · exact ⟨by dsimp; omega, by dsimp; omega, by dsimp; omega, by dsimp; omega, by dsimp; omega⟩
      · split
        · exact ⟨by dsimp; omega, by dsimp; omega, by dsimp; omega, by dsimp; omega, by dsimp; omega⟩
        · exact ⟨by dsimp; omega, by dsimp; omega, by dsimp; omega, by dsimp; omega, by dsimp; omega⟩

/-- The fold of `processOne` preserves the summary contract. -/
theorem foldl_processOne_inv (env : TopEnv) (dryRun : Bool) :
    ∀ (hashes : List String) (acc : Summary), summaryInv acc →
      summaryInv (hashes.foldl (processOne env dryRun) acc) := by
  intro hashes
  induction hashes with
  | nil => intro acc h; exact h
  | cons hd tl ih =>
    intro acc h
    exact ih _ (processOne_inv env dryRun acc hd h)

/-! ## C1 — summary contract of the update loop -/

/-- C1.  For every commit list and dry-run flag, the `Summary` returned by
`UpdateCommitList` — and hence by `UpdateNewCommits` and
`UpdateRangeCommits` whenever they succeed — has all four fields
non-negative and satisfies `Processed = Success + Failed + Skipped`. -/
theorem c1_summary_invariant :
    (∀ (env : TopEnv) (hashes : List String) (dryRun : Bool),
        summaryInv (updateCommitList env hashes dryRun))
    ∧ (∀ (env : TopEnv) (dryRun : Bool) (s : Summary),
        updateNewCommits env dryRun = Except.ok s → summaryInv s)
    ∧ (∀ (env : TopEnv) (fromHash toHash : String) (dryRun : Bool) (s : Summary),
        updateRangeCommits env fromHash toHash dryRun = Except.ok s → summaryInv s) := by
  have base : ∀ env hashes dryRun, summaryInv (updateCommitList env hashes dryRun) := by
    intro env hashes dryRun
    exact foldl_processOne_inv env dryRun hashes ⟨0, 0, 0, 0⟩ (by decide)
  refine ⟨base, ?_, ?_⟩
  · intro env dryRun s h
    unfold updateNewCommits at h
    cases h1 : env.getResumableCommits with
    | error e => rw [h1] at h; exact absurd h (by simp [Bind.bind, Except.bind])
    | ok resumable =>
      rw [h1] at h; simp only [Bind.bind, Except.bind] at h
      cases h2 : env.getLastProcessedCommit with
      | error e => rw [h2] at h; exact absurd h (by simp [Bind.bind, Except.bind])
      | ok last =>
        rw [h2] at h; simp only [Bind.bind, Except.bind] at h
        cases h3 : env.getCurrentHEAD with
        | error e => rw [h3] at h; exact absurd h (by simp [Bind.bind, Except.bind])
        | ok head =>
          rw [h3] at h; simp only [Bind.bind, Except.bind] at h
          cases h4 : env.getLastProcessedRange last head with
          | error e => rw [h4] at h; exact absurd h (by simp [Bind.bind, Except.bind])
          | ok commits =>
            rw [h4] at h; simp only [Bind.bind, Except.bind, Except.ok.injEq] at h
            exact h ▸ base env (mergeUnique resumable commits) dryRun
  · intro env fromHash toHash dryRun s h
    unfold updateRangeCommits at h
    have finish : ∀ (toCommit : String),
        (do
          let commitHashes ← env.getLastProcessedRange (trimSpace fromHash) toCommit
          Except.ok (updateCommitList env commitHashes dryRun) : Except String Summary)
          = Except.ok s → summaryInv s := by
      intro toCommit hh
      cases h4 : env.getLastProcessedRange (trimSpace fromHash) toCommit with
      | error e => rw [h4] at hh; exact absurd hh (by simp [Bind.bind, Except.bind])
      | ok commits =>
        rw [h4] at hh; simp only [Bind.bind, Except.bind, Except.ok.injEq] at hh
        exact hh ▸ base env commits dryRun
    by_cases hb : trimSpace toHash = ""
    · rw [if_pos hb] at h
      cases h0 : env.getCurrentHEAD with
      | error e => rw [h0] at h; exact absurd h (by simp [Bind.bind, Except.bind])
      | ok head => rw [h0] at h; simp only [Bind.bind, Except.bind] at h; exact finish head h
    · rw [if_neg hb] at h
      simp only [Bind.bind, Except.bind] at h
      exact finish (trimSpace toHash) h

/-- Witness for C1: the invariant evaluated through each entry point on a
concrete environment (two successful commits via `UpdateNewCommits`, one
via `UpdateCommitList`). -/
theorem c1_summary_invariant_witness :
    summaryInv (updateCommitList sampleTop ["x"] false)
    ∧ summaryInv (⟨2, 2, 0, 0⟩ : Summary)
    ∧ summaryInv (⟨2, 2, 0, 0⟩ : Summary) :=
  ⟨c1_summary_invariant.1 sampleTop ["x"] false,
   c1_summary_invariant.2.1 sampleTop true ⟨2, 2, 0, 0⟩ (by rfl),
   c1_summary_invariant.2.2 sampleTop "a" "" false ⟨2, 2, 0, 0⟩ (by rfl)⟩

/-! ## C2 — resilient client lemmas -/

/-- The retry loop makes at most `fuel` invocations. -/
theorem attemptLoop_calls_le (cancelled : Bool) (ctxErr : String) (p : Provider)
    (maxRetries : Nat) :
    ∀ (fuel attempt : Nat), (attemptLoop cancelled ctxErr p maxRetries attempt fuel).2.1 ≤ fuel := by
  intro fuel
  induction fuel with
  | zero => intro attempt; simp [attemptLoop]
  | succ f ih =>
    intro attempt
    simp only [attemptLoop]
    split
    · simp
    · split
      · simp
      · split
        · show (attemptLoop cancelled ctxErr p maxRetries (attempt + 1) f).2.1 + 1 ≤ f + 1
          have h := ih (attempt + 1)
          omega
        · simp

/-- A provider that fails on invocations `attempt ≤ k < attempt + N` and
succeeds on invocation `attempt + N` makes the loop succeed after exactly
`N + 1` invocations, sleeping `150·2^k` ms after failed attempt `k`. -/
theorem attemptLoop_fail_then_ok (ctxErr : String) (p : Provider) (maxRetries : Nat)
    (r : String) :
    ∀ (N attempt : Nat),
      (∀ k, attempt ≤ k → k < attempt + N → ∃ e, p.behavior k = Except.error e) →
      p.behavior (attempt + N) = Except.ok r →
      attempt + N ≤ maxRetries →
      ∃ le, attemptLoop false ctxErr p maxRetries attempt (maxRetries + 1 - attempt)
        = (AttemptRes.success r, N + 1, (List.range' attempt N).map (fun i => 150 * 2 ^ i), le) := by
  intro N
  induction N with
  | zero =>
    intro attempt _ hok hle
    rw [Nat.add_zero] at hok hle
    obtain ⟨f, hf⟩ : ∃ f, maxRetries + 1 - attempt = f + 1 := ⟨maxRetries - attempt, by omega⟩
    rw [hf]
    refine ⟨none, ?_⟩
    simp [attemptLoop, hok]
  | succ N ih =>
    intro attempt hfail hok hle
    obtain ⟨e, he⟩ := hfail attempt (Nat.le_refl _) (by omega)
    obtain ⟨f, hf⟩ : ∃ f, maxRetries + 1 - attempt = f + 1 := ⟨maxRetries - attempt, by omega⟩
    have hlt : attempt < maxRetries := by omega
    have harith : attempt + 1 + N = attempt + (N + 1) := by omega
    obtain ⟨le, hrec⟩ := ih (attempt + 1)
      (fun k hk1 hk2 => hfail k (by omega) (by omega))
      (by rw [harith]; exact hok) (by omega)
    have hfuel : f = maxRetries + 1 - (attempt + 1) := by omega
    refine ⟨some (le.getD
      ("provider " ++ p.name ++ " attempt " ++ toString (attempt + 1) ++ " failed: " ++ e)), ?_⟩
    rw [hf]
    simp only [attemptLoop, Bool.false_eq_true, if_false, he, hlt, if_true]
    rw [hfuel, hrec]
    simp [List.range'_succ]

/-- A provider that fails on every invocation exhausts the loop after
exactly `maxRetries + 1 - attempt` invocations. -/
theorem attemptLoop_all_fail (ctxErr : String) (p : Provider) (maxRetries : Nat)
    (hfail : ∀ k, ∃ e, p.behavior k = Except.error e) :
    ∀ (n attempt : Nat), attempt + n = maxRetries →
      ∃ w le, attemptLoop false ctxErr p maxRetries attempt (maxRetries + 1 - attempt)
        = (AttemptRes.exhausted, maxRetries + 1 - attempt, w, some le) := by
  intro n
  induction n with
  | zero =>
    intro attempt hat
    obtain ⟨e, he⟩ := hfail attempt
    have hf : maxRetries + 1 - attempt = 0 + 1 := by omega
    rw [hf]
    have hnlt : ¬ attempt < maxRetries := by omega
    refine ⟨[], "provider " ++ p.name ++ " attempt " ++ toString (attempt + 1) ++ " failed: " ++ e, ?_⟩
    simp [attemptLoop, he, hnlt]
  | succ n ih =>
    intro attempt hat
    obtain ⟨e, he⟩ := hfail attempt
    obtain ⟨f, hf⟩ : ∃ f, maxRetries + 1 - attempt = f + 1 := ⟨maxRetries - attempt, by omega⟩
    have hlt : attempt < maxRetries := by omega
    obtain ⟨w, le, hrec⟩ := ih (attempt + 1) (by omega)
    have hfuel : f = maxRetries + 1 - (attempt + 1) := by omega
    refine ⟨150 * 2 ^ attempt :: w, le, ?_⟩
    rw [hf]
    simp only [attemptLoop, Bool.false_eq_true, if_false, he, hlt, if_true]
    rw [hfuel, hrec]
    have harith : maxRetries + 1 - (attempt + 1) + 1 = maxRetries + 1 - attempt := by omega
    simp [harith]

/-- Every per-provider invocation count the outer loop records is at most
`maxRetries + 1`. -/
theorem generateAcross_counts_le (cancelled : Bool) (ctxErr : String) (maxRetries : Nat) :
    ∀ (clients : List Provider) (lastErr : Option String) (pr : String × Nat),
      pr ∈ (generateAcross cancelled ctxErr maxRetries clients lastErr).2.1 →
      pr.2 ≤ maxRetries + 1 := by
  intro clients
  induction clients with
  | nil => intro lastErr pr h; simp [generateAcross] at h
  | cons p rest ih =>
    intro lastErr pr h
    have hcal := attemptLoop_calls_le cancelled ctxErr p maxRetries (maxRetries + 1) 0
    simp only [generateAcross] at h
    rcases hres : attemptLoop cancelled ctxErr p maxRetries 0 (maxRetries + 1) with ⟨out, calls, waits, le⟩
    rw [hres] at h hcal
    simp only [] at hcal
    cases out with
    | success r =>
      simp only [List.mem_singleton] at h
      rw [h]
      exact hcal
    | canceled e =>
      simp only [List.mem_singleton] at h
      rw [h]
      exact hcal
    | exhausted =>
      simp only [List.mem_cons] at h
      cases h with
      | inl h => rw [h]; exact hcal
      | inr h => exact ih _ pr h

/-- C2.  The resilient client over an ordered provider list with a
never-cancelled context: (a) each provider is invoked at most
`maxRetries + 1` times; (b) a primary that fails exactly `N ≤ maxRetries`
times and then succeeds yields its result after exactly `N + 1`
invocations, with waits `150·2^0, …, 150·2^(N-1)` ms between attempts;
(c) with a primary that always fails and a fallback that always succeeds,
`Generate` returns the fallback's result, the primary is invoked
`maxRetries + 1` times and the fallback once. -/
theorem c2_resilient_client :
    (∀ (clients : List Provider) (maxRetries : Nat) (ctxErr : String) (pr : String × Nat),
        pr ∈ (resilientGenerate clients maxRetries false ctxErr).2.1 → pr.2 ≤ maxRetries + 1)
    ∧ (∀ (p : Provider) (rest : List Provider) (maxRetries N : Nat) (ctxErr r : String),
        (∀ k, k < N → ∃ e, p.behavior k = Except.error e) →
        p.behavior N = Except.ok r → N ≤ maxRetries →
        resilientGenerate (p :: rest) maxRetries false ctxErr
          = (Except.ok r, [(p.name, N + 1)], (List.range N).map (fun i => 150 * 2 ^ i)))
    ∧ (∀ (p q : Provider) (maxRetries : Nat) (ctxErr r : String),
        (∀ k, ∃ e, p.behavior k = Except.error e) → q.behavior 0 = Except.ok r →
        (resilientGenerate [p, q] maxRetries false ctxErr).1 = Except.ok r
        ∧ (resilientGenerate [p, q] maxRetries false ctxErr).2.1.map Prod.snd
            = [maxRetries + 1, 1]) := by
  refine ⟨?_, ?_, ?_⟩
  · intro clients maxRetries ctxErr pr h
    unfold resilientGenerate at h
    by_cases hc : clients.isEmpty
    · rw [if_pos hc] at h; simp at h
    · rw [if_neg hc] at h
      exact generateAcross_counts_le false ctxErr maxRetries clients none pr h
  · intro p rest maxRetries N ctxErr r hfail hok hle
    obtain ⟨le, hloop⟩ := attemptLoop_fail_then_ok ctxErr p maxRetries r N 0
      (fun k _ hk => hfail k (by omega)) (by simpa using hok) (by omega)
    rw [Nat.sub_zero] at hloop
    unfold resilientGenerate
    rw [if_neg (by simp)]
    simp only [generateAcross, hloop]
    rw [List.range_eq_range']
  · intro p q maxRetries ctxErr r hfail hok
    obtain ⟨w, le, hp⟩ := attemptLoop_all_fail ctxErr p maxRetries hfail maxRetries 0 (by omega)
    rw [Nat.sub_zero] at hp
    obtain ⟨le2, hq⟩ := attemptLoop_fail_then_ok ctxErr q maxRetries r 0 0
      (by omega) (by simpa using hok) (by omega)
    rw [Nat.sub_zero] at hq
    unfold resilientGenerate
    rw [if_neg (by simp)]
    simp only [generateAcross, hp, hq]
    simp

/-- Witness for C2: a provider failing twice with `maxRetries = 3`
succeeds on the third invocation with waits 150 ms and 300 ms; an
always-failing primary with `maxRetries = 1` falls through to the
fallback, which is invoked once. -/
theorem c2_resilient_client_witness :
    ("p", 3).2 ≤ 3 + 1
    ∧ resilientGenerate [wProvFlaky] 3 false "ctx" = (Except.ok "done", [("p", 3)], [150, 300])
    ∧ (resilientGenerate [wProvDown, wProvUp] 1 false "ctx").1 = Except.ok "fall"
    ∧ (resilientGenerate [wProvDown, wProvUp] 1 false "ctx").2.1.map Prod.snd = [2, 1] := by
  have hflaky := c2_resilient_client.2.1 wProvFlaky [] 3 2 "ctx" "done"
    (fun k hk => ⟨"boom", by simp [wProvFlaky, hk]⟩) (by rfl) (by omega)
  have hfall := c2_resilient_client.2.2 wProvDown wProvUp 1 "ctx" "fall"
    (fun k => ⟨"always", rfl⟩) (by rfl)
  exact ⟨c2_resilient_client.1 [wProvFlaky] 3 "ctx" ("p", 3) (by rw [hflaky]; simp [wProvFlaky]),
    hflaky, hfall.1, hfall.2⟩

/-! ## C3 — provider emptiness lemmas -/

/-- What `dropWhile` keeps starts with a character failing the predicate. -/
theorem dropWhile_eq_cons_not (p : Char → Bool) :
    ∀ (l : List Char) (c : Char) (t : List Char), l.dropWhile p = c :: t → p c = false := by
  intro l
  induction l with
  | nil => intro c t h; simp at h
  | cons hd tl ih =>
    intro c t h
    by_cases hp : p hd
    · rw [List.dropWhile_cons_of_pos hp] at h
      exact ih c t h
    · rw [List.dropWhile_cons_of_neg hp] at h
      cases h
      simpa using hp

/-- A non-empty `TrimSpace` result contains a non-space character: trimmed
text is never whitespace-only. -/
theorem trimSpace_not_all_space (s : String) (h : trimSpace s ≠ "") :
    (trimSpace s).toList.all goIsSpace = false := by
  unfold trimSpace at h ⊢
  rcases hX : (s.toList.dropWhile goIsSpace).reverse.dropWhile goIsSpace with _ | ⟨c, t⟩
  · rw [hX] at h
    exact absurd rfl h
  · have hc : goIsSpace c = false := dropWhile_eq_cons_not goIsSpace _ c t hX
    show ((c :: t).reverse).all goIsSpace = false
    rw [List.all_eq_false]
    exact ⟨c, by simp, by simp [hc]⟩

/-- C3 (amended).  The Groq, Ollama, Anthropic and Gemini clients never
return a nil error together with an empty or whitespace-only result: every
successful result contains a non-space character.  (The OpenAI client does
not share this property — see the counterexample.) -/
theorem c3_no_empty_success_non_openai :
    (∀ (o : HttpOutcome (List String)) (s : String),
        groqGenerate o = Except.ok s → s.toList.all goIsSpace = false)
    ∧ (∀ (o : HttpOutcome String) (s : String),
        ollamaGenerate o = Except.ok s → s.toList.all goIsSpace = false)
    ∧ (∀ (o : HttpOutcome (List AnthropicContent)) (s : String),
        anthropicGenerate o = Except.ok s → s.toList.all goIsSpace = false)
    ∧ (∀ (o : HttpOutcome (List (List String))) (s : String),
        geminiGenerate o = Except.ok s → s.toList.all goIsSpace = false) := by
  have shell : ∀ {α : Type} (label : String) (extract : α → Except String String)
      (hex : ∀ v s, extract v = Except.ok s → s.toList.all goIsSpace = false)
      (o : HttpOutcome α) (s : String),
      httpGenerate label extract o = Except.ok s → s.toList.all goIsSpace = false := by
    intro α label extract hex o s h
    cases o with
    | netError m => simp [httpGenerate] at h
    | response status body parsed =>
      simp only [httpGenerate] at h
      by_cases hs : 300 ≤ status
      · rw [if_pos hs] at h; simp at h
      · rw [if_neg hs] at h
        cases parsed with
        | error e => simp at h
        | ok v => exact hex v s h
  refine ⟨?_, ?_, ?_, ?_⟩
  · refine shell "groq" groqExtract ?_
    intro v s h
    cases v with
    | nil => simp [groqExtract] at h
    | cons c rest =>
      simp only [groqExtract] at h
      by_cases he : trimSpace c = ""
      · rw [if_pos he] at h; simp at h
      · rw [if_neg he] at h
        cases h
        exact trimSpace_not_all_space c he
  · refine shell "ollama" ollamaExtract ?_
    intro v s h
    simp only [ollamaExtract] at h
    by_cases he : trimSpace v = ""
    · rw [if_pos he] at h; simp at h
    · rw [if_neg he] at h
      cases h
      exact trimSpace_not_all_space v he
  · refine shell "anthropic" anthropicExtract ?_
    intro v s h
    simp only [anthropicExtract] at h
    rcases hf : v.find? (fun c => c.contentType == "text" && trimSpace c.text != "") with _ | ⟨c⟩
    · rw [hf] at h; simp at h
    · rw [hf] at h
      simp only [Except.ok.injEq] at h
      have hp := List.find?_some hf
      simp only [Bool.and_eq_true, bne_iff_ne, ne_eq] at hp
      rw [← h]
      exact trimSpace_not_all_space c.text hp.2
  · refine shell "gemini" geminiExtract ?_
    intro v s h
    simp only [geminiExtract] at h
    rcases hf : v.flatten.find? (fun t => trimSpace t != "") with _ | ⟨c⟩
    · rw [hf] at h; simp at h
    · rw [hf] at h
      simp only [Except.ok.injEq] at h
      have hp := List.find?_some hf
      simp only [bne_iff_ne, ne_eq] at hp
      rw [← h]
      exact trimSpace_not_all_space c hp

/-- Witness for C3 (amended): a Groq round trip whose decoded choice is
`" hi "` succeeds with `"hi"`, which is not whitespace-only. -/
theorem c3_no_empty_success_non_openai_witness :
    ("hi" : String).toList.all goIsSpace = false :=
  c3_no_empty_success_non_openai.1 (HttpOutcome.response 200 "" (Except.ok [" hi "])) "hi" (by rfl)

/-- Counterexample to C3 as stated: the OpenAI client maps a well-formed
200 response whose single choice content is whitespace-only to a nil error
and an empty result string (`openai.go` trims the first choice's content
and returns it without an emptiness check). -/
theorem c3_counterexample_openai_empty_success :
    openaiGenerate (HttpOutcome.response 200 "{}" (Except.ok [" \n "])) = Except.ok ""
    ∧ ("" : String).toList.all goIsSpace = true :=
  ⟨by rfl, by rfl⟩

/-! ## C4 — target resolution -/

/-- The inner mapping loop is the first mapping whose trimmed pattern is
contained in the changed path. -/
theorem findSome?_mapping_eq (changed : String) :
    ∀ (mappings : List MappingRule),
      mappings.findSome? (fun m =>
        if strContainsSub changed (trimStar m.codePattern) then some (m.docFile, m.sectionName)
        else none)
      = (mappings.find? (fun m => strContainsSub changed (trimStar m.codePattern))).map
          (fun m => (m.docFile, m.sectionName)) := by
  intro mappings
  induction mappings with
  | nil => rfl
  | cons m ms ih =>
    by_cases hm : strContainsSub changed (trimStar m.codePattern)
    · simp [List.findSome?_cons, List.find?_cons, hm]
    · simp only [List.findSome?_cons, List.find?_cons, hm, if_false, Bool.false_eq_true]
      exact ih

/-- C4 (amended).  Target resolution iterates changed files (outer) and
mappings in declaration order (inner); a mapping matches when the changed
path contains, as a substring, the pattern with only its leading and
trailing `*` trimmed (interior `*` stay literal); with no match the first
configured doc file and default section are used, and with no doc files
the literal `"README.md"`. -/
theorem c4_resolve_target_amended (cfg : Config) (changedFiles : List String) :
    resolveTarget cfg changedFiles = resolveTargetSpec cfg changedFiles := by
  unfold resolveTarget resolveTargetSpec
  induction changedFiles with
  | nil => rfl
  | cons changed rest ih =>
    rw [List.findSome?_cons, findSome?_mapping_eq changed]
    unfold resolveTargetLoop
    cases hf : cfg.mappings.find? (fun m => strContainsSub changed (trimStar m.codePattern)) with
    | none => simpa using ih
    | some m => rfl

/-- Witness for C4 (amended): on a concrete configuration, a mapping with
a leading wildcard (`"*.go"`, trimmed to `".go"`) matches a changed `.go`
path. -/
theorem c4_resolve_target_amended_witness :
    resolveTarget ⟨["DOC.md"], [⟨"*.go", "API.md", "Api"⟩], ⟨false, false, ""⟩, "Main", "m"⟩
        ["src/main.go"]
      = resolveTargetSpec ⟨["DOC.md"], [⟨"*.go", "API.md", "Api"⟩], ⟨false, false, ""⟩, "Main", "m"⟩
        ["src/main.go"]
    ∧ resolveTarget ⟨["DOC.md"], [⟨"*.go", "API.md", "Api"⟩], ⟨false, false, ""⟩, "Main", "m"⟩
        ["src/main.go"] = ("API.md", "Api") :=
  ⟨c4_resolve_target_amended _ _, by decide⟩

/-- Counterexample to C4 as stated: pattern `"src/*.go"` keeps its interior
`*` (`strings.Trim` only trims the ends), so although the changed path
`"xsrc/.goy"` contains the fully-stripped pattern `"src/.go"` — which per
the claim should select the mapping's `("API.md", "Api")` — resolution
falls through to the configured doc-file fallback. -/
theorem c4_counterexample_interior_wildcard :
    strContainsSub "xsrc/.goy" (stripWildcards "src/*.go") = true
    ∧ resolveTarget c4Cfg ["xsrc/.goy"] = ("DOC.md", "Main")
    ∧ ("DOC.md", "Main") ≠ (("API.md", "Api") : String × String) := by
  refine ⟨by decide, by decide, by decide⟩

/-! ## Pipeline lemmas: reaching the post-generation phase -/

/-- Under a cache hit `(resp, true, none)`, the pipeline reaches the
validation phase with the cached text, having performed exactly the
in-progress mark, the planned-update upsert and the cache-hit log — no
generation call. -/
theorem processSingleCommit_cache_hit (env : PipelineEnv) (hash : String) (dryRun : Bool)
    (f0 : String) (fs : List String) (msg dif root docRaw resp tf ts : String)
    (htf : resolveTarget env.cfg (f0 :: fs) = (tf, ts))
    (h1 : env.markCommitProcessed hash "in_progress" "" "" none = Except.ok ())
    (h2 : env.getChangedFiles hash = Except.ok (f0 :: fs))
    (h3 : env.getCommitMessage hash = Except.ok msg)
    (h4 : env.getCommitDiff hash = Except.ok dif)
    (h5 : env.getRepoRoot = Except.ok root)
    (h6 : env.readFile (joinPath root tf) = Except.ok docRaw)
    (h7 : env.upsertPlannedUpdate hash tf ts "inferred" "planned" "" = Except.ok ())
    (h8 : env.getCachedLLMResponse hash tf ts env.llmName env.cfg.llmModel (buildPrompt msg dif)
      = (resp, true, none)) :
    processSingleCommit env hash dryRun
      = afterGen env hash dryRun tf ts docRaw (joinPath root tf) resp
          [Effect.markCommit hash "in_progress" "" "" none,
           Effect.upsertPlanned hash tf ts "inferred" "planned" "",
           Effect.logEvent "info" "llm" "cache hit"] := by
  unfold processSingleCommit
  simp only [h1, h2, h3, h4, h5, htf, List.length_cons, Nat.succ_ne_zero, if_false, h6, h7, h8]
  simp

/-- Under a cache miss and a successful generation, the pipeline reaches
the validation phase with the fresh text, having invoked the generation
client exactly once and stored the response in the cache. -/
theorem processSingleCommit_cache_miss (env : PipelineEnv) (hash : String) (dryRun : Bool)
    (f0 : String) (fs : List String) (msg dif root docRaw r0 resp tf ts : String)
    (htf : resolveTarget env.cfg (f0 :: fs) = (tf, ts))
    (h1 : env.markCommitProcessed hash "in_progress" "" "" none = Except.ok ())
    (h2 : env.getChangedFiles hash = Except.ok (f0 :: fs))
    (h3 : env.getCommitMessage hash = Except.ok msg)
    (h4 : env.getCommitDiff hash = Except.ok dif)
    (h5 : env.getRepoRoot = Except.ok root)
    (h6 : env.readFile (joinPath root tf) = Except.ok docRaw)
    (h7 : env.upsertPlannedUpdate hash tf ts "inferred" "planned" "" = Except.ok ())
    (h8 : env.getCachedLLMResponse hash tf ts env.llmName env.cfg.llmModel (buildPrompt msg dif)
      = (r0, false, none))
    (h9 : env.llmGenerate (buildPrompt msg dif) = Except.ok resp) :
    processSingleCommit env hash dryRun
      = afterGen env hash dryRun tf ts docRaw (joinPath root tf) resp
          [Effect.markCommit hash "in_progress" "" "" none,
           Effect.upsertPlanned hash tf ts "inferred" "planned" "",
           Effect.llmGen (buildPrompt msg dif),
           Effect.putCache hash tf ts env.llmName env.cfg.llmModel
             (env.hashPromptFn (buildPrompt msg dif)) resp] := by
  unfold processSingleCommit
  simp only [h1, h2, h3, h4, h5, htf, List.length_cons, Nat.succ_ne_zero, if_false, h6, h7, h8,
    h9]
  simp

/-! ## C5 — missing target doc file -/

/-- C5.  When the resolved target doc file does not exist on disk, the
commit fails with an error naming the missing file and the generation
client is never invoked. -/
theorem c5_missing_doc_file (env : PipelineEnv) (hash : String) (dryRun : Bool)
    (f0 : String) (fs : List String) (msg dif root tf ts : String)
    (htf : resolveTarget env.cfg (f0 :: fs) = (tf, ts))
    (h1 : env.markCommitProcessed hash "in_progress" "" "" none = Except.ok ())
    (h2 : env.getChangedFiles hash = Except.ok (f0 :: fs))
    (h3 : env.getCommitMessage hash = Except.ok msg)
    (h4 : env.getCommitDiff hash = Except.ok dif)
    (h5 : env.getRepoRoot = Except.ok root)
    (h6 : env.readFile (joinPath root tf) = Except.error FsError.notExist) :
    (processSingleCommit env hash dryRun).1 = "failed"
    ∧ (processSingleCommit env hash dryRun).2.1 = some ("target doc file not found: " ++ tf)
    ∧ (processSingleCommit env hash dryRun).2.2.any Effect.isGen = false := by
  unfold processSingleCommit
  simp only [h1, h2, h3, h4, h5, htf, List.length_cons, Nat.succ_ne_zero, if_false, h6]
  simp [Effect.isGen]

/-- Witness for C5: `sampleEnv` with a filesystem on which every read
fails with not-exist. -/
theorem c5_missing_doc_file_witness :
    (processSingleCommit { sampleEnv with readFile := fun _ => Except.error FsError.notExist }
        "c1" false).1 = "failed"
    ∧ (processSingleCommit { sampleEnv with readFile := fun _ => Except.error FsError.notExist }
        "c1" false).2.1 = some ("target doc file not found: " ++ "README.md")
    ∧ (processSingleCommit { sampleEnv with readFile := fun _ => Except.error FsError.notExist }
        "c1" false).2.2.any Effect.isGen = false :=
  c5_missing_doc_file _ "c1" false "src/a.txt" [] "feat: add thing" "" "/repo" "README.md"
    "Recent Changes" (by rfl) (by rfl) (by rfl) (by rfl) (by rfl) (by rfl) (by rfl)

/-! ## Pipeline lemmas: the post-generation phase -/

/-- Validation failure marks the plan failed and fails the commit,
touching nothing else. -/
theorem afterGen_validation_fails (env : PipelineEnv) (hash : String) (dryRun : Bool)
    (tf ts docRaw dp resp reason : String) (fx : List Effect)
    (hval : validateGeneratedSection resp = Except.error reason) :
    afterGen env hash dryRun tf ts docRaw dp resp fx
      = ("failed", some reason, fx ++ [Effect.upsertPlanned hash tf ts "inferred" "failed" reason]) := by
  unfold afterGen
  simp only [hval]

/-- Content whose normalized replacement trims equal to the original marks
the plan unchanged and the commit skipped with an empty changed-files
list. -/
theorem afterGen_unchanged (env : PipelineEnv) (hash : String) (dryRun : Bool)
    (tf ts docRaw dp resp replaced : String) (fx : List Effect)
    (hval : validateGeneratedSection resp = Except.ok ())
    (hrep : env.replaceSection docRaw ts resp = Except.ok replaced)
    (heq : trimSpace (normalizeLineEndings replaced (detectLineEnding docRaw)) = trimSpace docRaw)
    (hmark : env.markCommitProcessed hash "skipped" "" "" (some []) = Except.ok ()) :
    afterGen env hash dryRun tf ts docRaw dp resp fx
      = ("skipped", none,
          fx ++ [Effect.upsertPlanned hash tf ts "inferred" "unchanged" "no document delta",
                 Effect.markCommit hash "skipped" "" "" (some [])]) := by
  unfold afterGen
  simp only [hval, hrep, heq, if_pos rfl, hmark]
  simp

/-- Dry-run with changed content marks the plan applied with reason
`"dry-run"` and the commit success with the target file, without reaching
the write/commit phase. -/
theorem afterGen_dry_run (env : PipelineEnv) (hash : String)
    (tf ts docRaw dp resp replaced : String) (fx : List Effect)
    (hval : validateGeneratedSection resp = Except.ok ())
    (hrep : env.replaceSection docRaw ts resp = Except.ok replaced)
    (hne : trimSpace (normalizeLineEndings replaced (detectLineEnding docRaw)) ≠ trimSpace docRaw)
    (hmark : env.markCommitProcessed hash "success" "" "" (some [tf]) = Except.ok ()) :
    afterGen env hash true tf ts docRaw dp resp fx
      = ("success", none,
          fx ++ [Effect.upsertPlanned hash tf ts "inferred" "applied" "dry-run",
                 Effect.markCommit hash "success" "" "" (some [tf])]) := by
  unfold afterGen
  simp only [hval, hrep, if_neg hne, if_pos rfl, hmark]
  simp

/-! ## C6 — no-op change never produces a commit -/

/-- C6.  Whichever way the replacement text was obtained (cache hit or
fresh generation), when the normalized replacement document trims equal to
the original the pipeline marks the plan `"unchanged"`, marks the commit
skipped with an empty changed-files list, and stops: nothing is written
and no documentation commit is created. -/
theorem c6_unchanged_no_commit (env : PipelineEnv) (hash : String) (dryRun : Bool)
    (f0 : String) (fs : List String) (msg dif root docRaw cr gr resp replaced tf ts : String)
    (cached : Bool)
    (htf : resolveTarget env.cfg (f0 :: fs) = (tf, ts))
    (h1 : env.markCommitProcessed hash "in_progress" "" "" none = Except.ok ())
    (h2 : env.getChangedFiles hash = Except.ok (f0 :: fs))
    (h3 : env.getCommitMessage hash = Except.ok msg)
    (h4 : env.getCommitDiff hash = Except.ok dif)
    (h5 : env.getRepoRoot = Except.ok root)
    (h6 : env.readFile (joinPath root tf) = Except.ok docRaw)
    (h7 : env.upsertPlannedUpdate hash tf ts "inferred" "planned" "" = Except.ok ())
    (h8 : env.getCachedLLMResponse hash tf ts env.llmName env.cfg.llmModel (buildPrompt msg dif)
      = (cr, cached, none))
    (h9 : env.llmGenerate (buildPrompt msg dif) = Except.ok gr)
    (hresp : (if cached then cr else gr) = resp)
    (hval : validateGeneratedSection resp = Except.ok ())
    (hrep : env.replaceSection docRaw ts resp = Except.ok replaced)
    (heq : trimSpace (normalizeLineEndings replaced (detectLineEnding docRaw)) = trimSpace docRaw)
    (hmark : env.markCommitProcessed hash "skipped" "" "" (some []) = Except.ok ()) :
    (processSingleCommit env hash dryRun).1 = "skipped"
    ∧ (processSingleCommit env hash dryRun).2.1 = none
    ∧ Effect.upsertPlanned hash tf ts "inferred" "unchanged" "no document delta"
        ∈ (processSingleCommit env hash dryRun).2.2
    ∧ Effect.markCommit hash "skipped" "" "" (some []) ∈ (processSingleCommit env hash dryRun).2.2
    ∧ (processSingleCommit env hash dryRun).2.2.any Effect.touchesRepo = false := by
  cases cached with
  | true =>
    rw [if_pos rfl] at hresp
    subst hresp
    rw [processSingleCommit_cache_hit env hash dryRun f0 fs msg dif root docRaw cr tf ts
          htf h1 h2 h3 h4 h5 h6 h7 h8,
        afterGen_unchanged env hash dryRun tf ts docRaw (joinPath root tf) cr replaced _
          hval hrep heq hmark]
    exact ⟨rfl, rfl, by simp, by simp, by simp [Effect.touchesRepo]⟩
  | false =>
    rw [if_neg (by simp)] at hresp
    subst hresp
    rw [processSingleCommit_cache_miss env hash dryRun f0 fs msg dif root docRaw cr gr tf ts
          htf h1 h2 h3 h4 h5 h6 h7 h8 h9,
        afterGen_unchanged env hash dryRun tf ts docRaw (joinPath root tf) gr replaced _
          hval hrep heq hmark]
    exact ⟨rfl, rfl, by simp, by simp, by simp [Effect.touchesRepo]⟩

/-- Witness for C6: an environment whose section replacement returns the
original document unchanged; the commit is skipped and nothing is written
or committed. -/
theorem c6_unchanged_no_commit_witness :
    (processSingleCommit { sampleEnv with replaceSection := fun d _ _ => Except.ok d }
        "c1" false).1 = "skipped"
    ∧ (processSingleCommit { sampleEnv with replaceSection := fun d _ _ => Except.ok d }
        "c1" false).2.1 = none
    ∧ Effect.upsertPlanned "c1" "README.md" "Recent Changes" "inferred" "unchanged"
        "no document delta"
        ∈ (processSingleCommit { sampleEnv with replaceSection := fun d _ _ => Except.ok d }
            "c1" false).2.2
    ∧ Effect.markCommit "c1" "skipped" "" "" (some [])
        ∈ (processSingleCommit { sampleEnv with replaceSection := fun d _ _ => Except.ok d }
            "c1" false).2.2
    ∧ (processSingleCommit { sampleEnv with replaceSection := fun d _ _ => Except.ok d }
        "c1" false).2.2.any Effect.touchesRepo = false :=
  c6_unchanged_no_commit _ "c1" false "src/a.txt" [] "feat: add thing" "" "/repo"
    "# Doc\n\n## Recent Changes\n\nold\n" "" "new content" "new content"
    "# Doc\n\n## Recent Changes\n\nold\n" "README.md" "Recent Changes" false
    (by rfl) (by rfl) (by rfl) (by rfl) (by rfl) (by rfl) (by rfl) (by rfl) (by rfl) (by rfl)
    (by rfl) (by rfl) (by rfl) (by rfl) (by rfl)

/-! ## C7 — dry-run frame property -/

/-- C7.  With `dryRun = true` and content that would change, the pipeline
never writes the doc file and never stages a commit or amend, yet marks
the plan applied with reason `"dry-run"` and the commit success with the
target file in its changed-files list. -/
theorem c7_dry_run_no_side_effects (env : PipelineEnv) (hash : String)
    (f0 : String) (fs : List String) (msg dif root docRaw cr gr resp replaced tf ts : String)
    (cached : Bool)
    (htf : resolveTarget env.cfg (f0 :: fs) = (tf, ts))
    (h1 : env.markCommitProcessed hash "in_progress" "" "" none = Except.ok ())
    (h2 : env.getChangedFiles hash = Except.ok (f0 :: fs))
    (h3 : env.getCommitMessage hash = Except.ok msg)
    (h4 : env.getCommitDiff hash = Except.ok dif)
    (h5 : env.getRepoRoot = Except.ok root)
    (h6 : env.readFile (joinPath root tf) = Except.ok docRaw)
    (h7 : env.upsertPlannedUpdate hash tf ts "inferred" "planned" "" = Except.ok ())
    (h8 : env.getCachedLLMResponse hash tf ts env.llmName env.cfg.llmModel (buildPrompt msg dif)
      = (cr, cached, none))
    (h9 : env.llmGenerate (buildPrompt msg dif) = Except.ok gr)
    (hresp : (if cached then cr else gr) = resp)
    (hval : validateGeneratedSection resp = Except.ok ())
    (hrep : env.replaceSection docRaw ts resp = Except.ok replaced)
    (hne : trimSpace (normalizeLineEndings replaced (detectLineEnding docRaw)) ≠ trimSpace docRaw)
    (hmark : env.markCommitProcessed hash "success" "" "" (some [tf]) = Except.ok ()) :
    (processSingleCommit env hash true).1 = "success"
    ∧ (processSingleCommit env hash true).2.1 = none
    ∧ Effect.upsertPlanned hash tf ts "inferred" "applied" "dry-run"
        ∈ (processSingleCommit env hash true).2.2
    ∧ Effect.markCommit hash "success" "" "" (some [tf]) ∈ (processSingleCommit env hash true).2.2
    ∧ (processSingleCommit env hash true).2.2.any Effect.touchesRepo = false := by
  cases cached with
  | true =>
    rw [if_pos rfl] at hresp
    subst hresp
    rw [processSingleCommit_cache_hit env hash true f0 fs msg dif root docRaw cr tf ts
          htf h1 h2 h3 h4 h5 h6 h7 h8,
        afterGen_dry_run env hash tf ts docRaw (joinPath root tf) cr replaced _
          hval hrep hne hmark]
    exact ⟨rfl, rfl, by simp, by simp, by simp [Effect.touchesRepo]⟩
  | false =>
    rw [if_neg (by simp)] at hresp
    subst hresp
    rw [processSingleCommit_cache_miss env hash true f0 fs msg dif root docRaw cr gr tf ts
          htf h1 h2 h3 h4 h5 h6 h7 h8 h9,
        afterGen_dry_run env hash tf ts docRaw (joinPath root tf) gr replaced _
          hval hrep hne hmark]
    exact ⟨rfl, rfl, by simp, by simp, by simp [Effect.touchesRepo]⟩

/-- Witness for C7: the fully-succeeding environment run with
`dryRun = true` reports success, records the dry-run plan, and leaves
disk and source control untouched. -/
theorem c7_dry_run_no_side_effects_witness :
    (processSingleCommit sampleEnv "c1" true).1 = "success"
    ∧ (processSingleCommit sampleEnv "c1" true).2.1 = none
    ∧ Effect.upsertPlanned "c1" "README.md" "Recent Changes" "inferred" "applied" "dry-run"
        ∈ (processSingleCommit sampleEnv "c1" true).2.2
    ∧ Effect.markCommit "c1" "success" "" "" (some ["README.md"])
        ∈ (processSingleCommit sampleEnv "c1" true).2.2
    ∧ (processSingleCommit sampleEnv "c1" true).2.2.any Effect.touchesRepo = false :=
  c7_dry_run_no_side_effects sampleEnv "c1" "src/a.txt" [] "feat: add thing" "" "/repo"
    "# Doc\n\n## Recent Changes\n\nold\n" "" "new content" "new content"
    "# Doc\n\n## Recent Changes\n\nnew content\n" "README.md" "Recent Changes" false
    (by rfl) (by rfl) (by rfl) (by rfl) (by rfl) (by rfl) (by rfl) (by rfl) (by rfl) (by rfl)
    (by rfl) (by rfl) (by rfl) (by decide) (by rfl)

/-! ## C9 — generated-content validation -/

/-- Dropping is the identity on a list with no satisfying element. -/
theorem dropWhile_eq_self_of_all_neg (p : Char → Bool) :
    ∀ (l : List Char), (∀ x ∈ l, p x = false) → l.dropWhile p = l := by
  intro l h
  induction l with
  | nil => rfl
  | cons c t ih =>
    rw [List.dropWhile_cons_of_neg (by simp [h c (by simp)])]

/-- UTF-8 length of `n` copies of one character. -/
theorem foldl_utf8Size_replicate (c : Char) :
    ∀ (n k : Nat),
      (List.replicate n c).foldl (fun n c => n + c.utf8Size) k = k + n * c.utf8Size := by
  intro n
  induction n with
  | zero => intro k; simp
  | succ m ih =>
    intro k
    rw [List.replicate_succ, List.foldl_cons, ih]
    ring

/-- Trimming is the identity on `bigCJK` (no character is white space). -/
theorem trimSpace_bigCJK : trimSpace bigCJK = bigCJK := by
  have hall : ∀ x ∈ List.replicate 8334 (Char.ofNat 0x4E00), goIsSpace x = false := by
    intro x hx
    rw [List.eq_of_mem_replicate hx]
    decide
  have h1 : (List.replicate 8334 (Char.ofNat 0x4E00)).dropWhile goIsSpace
      = List.replicate 8334 (Char.ofNat 0x4E00) := dropWhile_eq_self_of_all_neg _ _ hall
  unfold trimSpace bigCJK
  show ((((List.replicate 8334 (Char.ofNat 0x4E00)).dropWhile goIsSpace).reverse.dropWhile
      goIsSpace).reverse).asString = _
  rw [h1, List.reverse_replicate, dropWhile_eq_self_of_all_neg _ _ hall, List.reverse_replicate]
  rfl

/-- Counterexample to C9 as stated: `bigCJK` has only 8334 ≤ 25000
characters and is not whitespace-only, yet validation rejects it — the
source's `len` counts UTF-8 bytes (25002 here), not characters. -/
theorem c9_counterexample_bytes_not_chars :
    validateGeneratedSection bigCJK = Except.error "generated section content exceeds max size"
    ∧ bigCJK.length ≤ 25000
    ∧ trimSpace bigCJK ≠ "" := by
  have hlen8334 : bigCJK.length = 8334 := by
    unfold bigCJK
    show (List.replicate 8334 (Char.ofNat 0x4E00)).length = 8334
    exact List.length_replicate 8334 _
  have hne : bigCJK ≠ "" := by
    intro h
    have h2 := congrArg String.length h
    rw [hlen8334] at h2
    exact absurd h2 (by decide)
  have hlen : goStrLen bigCJK = 25002 := by
    unfold goStrLen bigCJK
    show (List.replicate 8334 (Char.ofNat 0x4E00)).foldl (fun n c => n + c.utf8Size) 0 = 25002
    rw [foldl_utf8Size_replicate]
    decide
  refine ⟨?_, ?_, ?_⟩
  · unfold validateGeneratedSection
    rw [trimSpace_bigCJK, if_neg hne, hlen, if_pos (by decide)]
  · rw [hlen8334]
    decide
  · rw [trimSpace_bigCJK]
    exact hne

/-- C9 (amended).  Validation rejects exactly the contents that trim to
empty or whose trimmed text exceeds 25000 UTF-8 bytes; and a rejected
generation marks the plan failed with the validation reason, fails the
commit, and leaves the document untouched (no write, stage or amend). -/
theorem c9_validation (env : PipelineEnv) (hash : String) (dryRun : Bool)
    (f0 : String) (fs : List String) (msg dif root docRaw r0 resp reason tf ts : String)
    (htf : resolveTarget env.cfg (f0 :: fs) = (tf, ts))
    (h1 : env.markCommitProcessed hash "in_progress" "" "" none = Except.ok ())
    (h2 : env.getChangedFiles hash = Except.ok (f0 :: fs))
    (h3 : env.getCommitMessage hash = Except.ok msg)
    (h4 : env.getCommitDiff hash = Except.ok dif)
    (h5 : env.getRepoRoot = Except.ok root)
    (h6 : env.readFile (joinPath root tf) = Except.ok docRaw)
    (h7 : env.upsertPlannedUpdate hash tf ts "inferred" "planned" "" = Except.ok ())
    (h8 : env.getCachedLLMResponse hash tf ts env.llmName env.cfg.llmModel (buildPrompt msg dif)
      = (r0, false, none))
    (h9 : env.llmGenerate (buildPrompt msg dif) = Except.ok resp)
    (hval : validateGeneratedSection resp = Except.error reason) :
    (∀ content : String,
        (∃ e, validateGeneratedSection content = Except.error e)
          ↔ (trimSpace content = "" ∨ 25000 < goStrLen (trimSpace content)))
    ∧ (processSingleCommit env hash dryRun).1 = "failed"
    ∧ (processSingleCommit env hash dryRun).2.1 = some reason
    ∧ Effect.upsertPlanned hash tf ts "inferred" "failed" reason
        ∈ (processSingleCommit env hash dryRun).2.2
    ∧ (processSingleCommit env hash dryRun).2.2.any Effect.touchesRepo = false := by
  have hchar : ∀ content : String,
      (∃ e, validateGeneratedSection content = Except.error e)
        ↔ (trimSpace content = "" ∨ 25000 < goStrLen (trimSpace content)) := by
    intro content
    unfold validateGeneratedSection
    by_cases he : trimSpace content = ""
    · rw [if_pos he]
      exact ⟨fun _ => Or.inl he, fun _ => ⟨_, rfl⟩⟩
    · rw [if_neg he]
      by_cases hl : goStrLen (trimSpace content) > 25000
      · rw [if_pos hl]
        exact ⟨fun _ => Or.inr hl, fun _ => ⟨_, rfl⟩⟩
      · rw [if_neg hl]
        constructor
        · rintro ⟨e, he2⟩
          cases he2
        · rintro (h | h)
          · exact absurd h he
          · exact absurd h hl
  rw [processSingleCommit_cache_miss env hash dryRun f0 fs msg dif root docRaw r0 resp tf ts
        htf h1 h2 h3 h4 h5 h6 h7 h8 h9,
      afterGen_validation_fails env hash dryRun tf ts docRaw (joinPath root tf) resp reason _ hval]
  exact ⟨hchar, rfl, rfl, by simp, by simp [Effect.touchesRepo]⟩

/-- Witness for C9 (amended): a generation returning a whitespace-only
string fails validation; the characterization instantiated at `" "`. -/
theorem c9_validation_witness :
    ((∃ e, validateGeneratedSection " " = Except.error e)
        ↔ (trimSpace " " = "" ∨ 25000 < goStrLen (trimSpace " ")))
    ∧ (processSingleCommit { sampleEnv with llmGenerate := fun _ => Except.ok " " }
        "c1" false).1 = "failed"
    ∧ (processSingleCommit { sampleEnv with llmGenerate := fun _ => Except.ok " " }
        "c1" false).2.1 = some "generated section content is empty"
    ∧ Effect.upsertPlanned "c1" "README.md" "Recent Changes" "inferred" "failed"
        "generated section content is empty"
        ∈ (processSingleCommit { sampleEnv with llmGenerate := fun _ => Except.ok " " }
            "c1" false).2.2
    ∧ (processSingleCommit { sampleEnv with llmGenerate := fun _ => Except.ok " " }
        "c1" false).2.2.any Effect.touchesRepo = false := by
  have h := c9_validation { sampleEnv with llmGenerate := fun _ => Except.ok " " }
    "c1" false "src/a.txt" [] "feat: add thing" "" "/repo"
    "# Doc\n\n## Recent Changes\n\nold\n" "" " " "generated section content is empty"
    "README.md" "Recent Changes"
    (by rfl) (by rfl) (by rfl) (by rfl) (by rfl) (by rfl) (by rfl) (by rfl) (by rfl) (by rfl)
    (by rfl)
  exact ⟨h.1 " ", h.2.1, h.2.2.1, h.2.2.2.1, h.2.2.2.2⟩

/-! ## C10 — cached responses are validated like fresh ones -/

/-- C10.  On a cache hit the stored text bypasses generation but still
passes through `validateGeneratedSection`: an invalid cached response
fails the commit with the validation reason, and the generation client is
never invoked. -/
theorem c10_cached_response_validated (env : PipelineEnv) (hash : String) (dryRun : Bool)
    (f0 : String) (fs : List String) (msg dif root docRaw resp reason tf ts : String)
    (htf : resolveTarget env.cfg (f0 :: fs) = (tf, ts))
    (h1 : env.markCommitProcessed hash "in_progress" "" "" none = Except.ok ())
    (h2 : env.getChangedFiles hash = Except.ok (f0 :: fs))
    (h3 : env.getCommitMessage hash = Except.ok msg)
    (h4 : env.getCommitDiff hash = Except.ok dif)
    (h5 : env.getRepoRoot = Except.ok root)
    (h6 : env.readFile (joinPath root tf) = Except.ok docRaw)
    (h7 : env.upsertPlannedUpdate hash tf ts "inferred" "planned" "" = Except.ok ())
    (h8 : env.getCachedLLMResponse hash tf ts env.llmName env.cfg.llmModel (buildPrompt msg dif)
      = (resp, true, none))
    (hval : validateGeneratedSection resp = Except.error reason) :
    (processSingleCommit env hash dryRun).1 = "failed"
    ∧ (processSingleCommit env hash dryRun).2.1 = some reason
    ∧ Effect.upsertPlanned hash tf ts "inferred" "failed" reason
        ∈ (processSingleCommit env hash dryRun).2.2
    ∧ (processSingleCommit env hash dryRun).2.2.any Effect.isGen = false := by
  rw [processSingleCommit_cache_hit env hash dryRun f0 fs msg dif root docRaw resp tf ts
        htf h1 h2 h3 h4 h5 h6 h7 h8,
      afterGen_validation_fails env hash dryRun tf ts docRaw (joinPath root tf) resp reason _ hval]
  exact ⟨rfl, rfl, by simp, by simp [Effect.isGen]⟩

/-- Witness for C10: a cache hit with a whitespace-only stored response
fails the commit and the generation client is never called. -/
theorem c10_cached_response_validated_witness :
    (processSingleCommit
        { sampleEnv with getCachedLLMResponse := fun _ _ _ _ _ _ => (" ", true, none) }
        "c1" false).1 = "failed"
    ∧ (processSingleCommit
        { sampleEnv with getCachedLLMResponse := fun _ _ _ _ _ _ => (" ", true, none) }
        "c1" false).2.1 = some "generated section content is empty"
    ∧ Effect.upsertPlanned "c1" "README.md" "Recent Changes" "inferred" "failed"
        "generated section content is empty"
        ∈ (processSingleCommit
            { sampleEnv with getCachedLLMResponse := fun _ _ _ _ _ _ => (" ", true, none) }
            "c1" false).2.2
    ∧ (processSingleCommit
        { sampleEnv with getCachedLLMResponse := fun _ _ _ _ _ _ => (" ", true, none) }
        "c1" false).2.2.any Effect.isGen = false :=
  c10_cached_response_validated _ "c1" false "src/a.txt" [] "feat: add thing" "" "/repo"
    "# Doc\n\n## Recent Changes\n\nold\n" " " "generated section content is empty"
    "README.md" "Recent Changes"
    (by rfl) (by rfl) (by rfl) (by rfl) (by rfl) (by rfl) (by rfl) (by rfl) (by rfl) (by rfl)

/-! ## C8 — cache round-trip -/

/-- An entry matches its own key. -/
theorem cacheKeyMatches_self (e : LLMCacheEntry) :
    cacheKeyMatches e e.commitHash e.docFile e.sectionID e.provider e.model e.promptHash = true := by
  simp [cacheKeyMatches]

/-- The conflict-update branch of the upsert leaves some row with the key
carrying the new response text. -/
theorem find?_map_upsert (e : LLMCacheEntry)
    (key : LLMCacheEntry → Bool)
    (hkeyStable : ∀ r, key { r with response := e.response } = key r) :
    ∀ (tbl : List LLMCacheEntry), tbl.any key = true →
      ∃ r, (tbl.map (fun r => if key r then { r with response := e.response } else r)).find? key
          = some r ∧ r.response = e.response := by
  intro tbl
  induction tbl with
  | nil => intro h; simp at h
  | cons r t ih =>
    intro h
    by_cases hr : key r
    · refine ⟨{ r with response := e.response }, ?_, rfl⟩
      simp [List.find?_cons, hr, hkeyStable]
    · simp only [List.any_cons, hr, Bool.false_or] at h
      obtain ⟨r2, hfind, hresp⟩ := ih h
      refine ⟨r2, ?_, hresp⟩
      simpa [List.find?_cons, hr] using hfind

/-- C8.  After a successful `PutCachedLLMResponse` of an entry whose
prompt hash is the fingerprint of `p`, querying the same six-tuple
`(commit, doc-file, section, provider, model, p)` hits and returns exactly
the stored text — over any prior store contents; and, starting from an
empty store, a query differing in at least one of the six key fields
(a different prompt entering as a different fingerprint) misses.  Stated
for an arbitrary fingerprint function `hp`, hence in particular for the
source's SHA-256. -/
theorem c8_cache_roundtrip (hp : String → String) (e : LLMCacheEntry) (p : String)
    (hkey : e.promptHash = hp p) :
    (∀ (tbl tbl' : List LLMCacheEntry), putCachedLLMResponseModel tbl e = Except.ok tbl' →
        getCachedLLMResponseModel hp tbl' e.commitHash e.docFile e.sectionID e.provider e.model p
          = (e.response, true))
    ∧ (∀ (tbl' : List LLMCacheEntry), putCachedLLMResponseModel [] e = Except.ok tbl' →
        ∀ (c d sec pv m p' : String),
          (c, d, sec, pv, m, hp p') ≠
            (e.commitHash, e.docFile, e.sectionID, e.provider, e.model, e.promptHash) →
          getCachedLLMResponseModel hp tbl' c d sec pv m p' = ("", false)) := by
  constructor
  · intro tbl tbl' hput
    unfold putCachedLLMResponseModel at hput
    by_cases hempty : e.promptHash = ""
    · rw [if_pos hempty] at hput
      cases hput
    · rw [if_neg hempty] at hput
      unfold getCachedLLMResponseModel
      rw [← hkey]
      dsimp only
      by_cases hany : tbl.any (fun r =>
          cacheKeyMatches r e.commitHash e.docFile e.sectionID e.provider e.model e.promptHash)
      · rw [if_pos hany] at hput
        cases hput
        obtain ⟨r, hfind, hresp⟩ := find?_map_upsert e _
          (fun r => by simp [cacheKeyMatches]) tbl hany
        rw [hfind]
        simp [hresp]
      · rw [if_neg hany] at hput
        cases hput
        rw [List.find?_append]
        have hnone : tbl.find? (fun r =>
            cacheKeyMatches r e.commitHash e.docFile e.sectionID e.provider e.model e.promptHash)
            = none := by
          rw [List.find?_eq_none]
          intro a ha
          have := (List.any_eq_false.mp (by simpa using hany)) a ha
          simpa using this
        rw [hnone]
        simp [cacheKeyMatches_self]
  · intro tbl' hput c d sec pv m p' hdiff
    unfold putCachedLLMResponseModel at hput
    by_cases hempty : e.promptHash = ""
    · rw [if_pos hempty] at hput
      cases hput
    · rw [if_neg hempty] at hput
      simp only [List.any_nil, Bool.false_eq_true, if_false, List.nil_append] at hput
      cases hput
      unfold getCachedLLMResponseModel
      dsimp only
      have hkeyF : cacheKeyMatches e c d sec pv m (hp p') = false := by
        by_contra hcon
        rw [Bool.not_eq_false] at hcon
        simp only [cacheKeyMatches, Bool.and_eq_true, beq_iff_eq] at hcon
        obtain ⟨⟨⟨⟨⟨hc, hd⟩, hs⟩, hpv⟩, hm⟩, hph⟩ := hcon
        exact hdiff (by simp [hc, hd, hs, hpv, hm, hph])
      simp [List.find?_cons, hkeyF]

/-- Witness for C8: a round trip through an empty store over the
fingerprint `sampleHash` hits with the stored text on the identical key
and misses on a prompt with a different fingerprint. -/
theorem c8_cache_roundtrip_witness :
    getCachedLLMResponseModel sampleHash [sampleEntry] "c1" "README.md" "Recent Changes"
        "mock" "gpt" "p1" = ("stored", true)
    ∧ getCachedLLMResponseModel sampleHash [sampleEntry] "c1" "README.md" "Recent Changes"
        "mock" "gpt" "p2" = ("", false) :=
  ⟨(c8_cache_roundtrip sampleHash sampleEntry "p1" (by rfl)).1 [] [sampleEntry] (by rfl),
   (c8_cache_roundtrip sampleHash sampleEntry "p1" (by rfl)).2 [sampleEntry] (by rfl)
     "c1" "README.md" "Recent Changes" "mock" "gpt" "p2" (by decide)⟩

end GitDoc

-- Model sanity checks: concrete evaluations mirroring the repository's
-- own unit-test vectors (diff analyzer, doc fileio, resolver, validator).
example : GitDoc.trimSpace "  a b \n" = "a b" := by decide
example : GitDoc.trimStar "src/*.go" = "src/*.go" := by decide
example : GitDoc.trimStar "*.go" = ".go" := by decide
example : GitDoc.strContainsSub "xsrc/.goy" "src/.go" = true := by decide
example : GitDoc.strReplaceAll "a\r\nb\rc" "\r\n" "\n" = "a\nb\rc" := by decide
example : GitDoc.normalizeLineEndings "a\nb" "\r\n" = "a\r\nb" := by decide
example : GitDoc.goSplit "a@@b@@" "@@" = ["a", "b", ""] := by decide
example : GitDoc.goSplit "" "\n" = [""] := by decide
example : GitDoc.goFields " -1,2  +3,4 ctx" = ["-1,2", "+3,4", "ctx"] := by decide
example : GitDoc.goAtoi "-12" = some (-12) := by decide
example : GitDoc.goAtoi "+3" = some 3 := by decide
example : GitDoc.goAtoi "" = none := by decide
example : GitDoc.goAtoi "1a" = none := by decide
example : GitDoc.goStrLen "a€" = 4 := by decide
example : GitDoc.strDropPre "+++ b/a.go" "+++ b/" = "a.go" := by decide
example : GitDoc.parseUnifiedDiff "" = Except.ok ⟨[]⟩ := by rfl
example :
    GitDoc.parseUnifiedDiff
      "diff --git a/a.go b/a.go\nindex 1..2 100644\n--- a/a.go\n+++ b/a.go\n@@ -1,2 +1,3 @@\n line1\n-line2\n+line2changed\n+line3\n"
    = Except.ok ⟨[⟨"a.go", [⟨1, 2, 1, 3, [" line1", "-line2", "+line2changed", "+line3", ""]⟩], 2, 1⟩]⟩ := by rfl
example : GitDoc.buildSummary ⟨[⟨"a.go", [⟨1,2,1,3,[]⟩], 3, 1⟩]⟩ = "Files changed: 1\n- a.go (hunks=1, +3, -1)" := by decide
example : GitDoc.openaiGenerate (GitDoc.HttpOutcome.response 200 "" (Except.ok [" \n "])) = Except.ok "" := by rfl
example : GitDoc.resilientGenerate [⟨"p", fun k => if k < 2 then Except.error "boom" else Except.ok "done"⟩] 3 false "c"
    = (Except.ok "done", [("p", 3)], [150, 300]) := by rfl
example : GitDoc.resilientGenerate [⟨"f", fun _ => Except.error "always"⟩, ⟨"q", fun _ => Except.ok "fall"⟩] 1 false "c"
    = (Except.ok "fall", [("f", 2), ("q", 1)], [150]) := by rfl
example : GitDoc.resilientGenerate [] 3 false "c" = (Except.error "no llm clients configured", [], []) := by rfl
example : (GitDoc.resilientGenerate [⟨"f", fun _ => Except.error "x"⟩] 0 false "c").1
    = Except.error "provider f attempt 1 failed: x" := by rfl
example : GitDoc.resolveTarget ⟨["DOC.md"], [⟨"src/*.go","API.md","Api"⟩], ⟨false,false,""⟩, "Main", "m"⟩ ["xsrc/.goy"]
    = ("DOC.md", "Main") := by decide
example : GitDoc.resolveTarget ⟨["DOC.md"], [⟨"*.go","API.md","Api"⟩], ⟨false,false,""⟩, "Main", "m"⟩ ["src/main.go"]
    = ("API.md", "Api") := by decide
example : GitDoc.resolveTarget ⟨[], [], ⟨false,false,""⟩, "Main", "m"⟩ ["a"] = ("README.md", "Main") := by decide
example : GitDoc.mergeUnique ["a", "", "b", "a"] ["b", "c"] = ["a", "b", "c"] := by decide
example : GitDoc.validateGeneratedSection "  \n " = Except.error "generated section content is empty" := by rfl
example : GitDoc.validateGeneratedSection "hi" = Except.ok () := by rfl

